import Mathlib

/-!
# easemesh `emctl` client generator: visitor and type descriptor extractor

A shallow embedding of `emctl/cmd/transformer/generator/visitor.go`.

Conventions of the embedding:

* A Go `string` is a sequence of bytes.  It is modelled by the Lean `String` that has one
  character per byte, the character with the byte's value as its code; ASCII text is modelled
  by itself.  Indexing, slicing, splitting, concatenation and comparison then act on characters
  exactly as the source acts on bytes.  A `String` with a character above 255 models no Go
  string.
* A nil-able pointer or interface is an `Option`; `none` is `nil`.
* A run-time panic and the exhaustion of the loop budget are the two `Fault`s; code that can
  panic or loop returns `Except Fault _`.
* Objects that the source mutates through pointers (the fields of the method signature, the
  caller's output slices, the emission buffer) are passed in and returned explicitly.
-/

deriving instance DecidableEq for Except

namespace Generator

/-! ## Faults and errors -/

/-- The run-time panics the modelled code can raise. -/
inductive Panic where
  | nilDereference
  | indexOutOfRange
  | sliceBoundsOutOfRange
  | typeAssertion
  deriving DecidableEq, Repr

/-- Ways in which a call fails to return: a Go panic, or a loop that used its whole budget of
iterations. -/
inductive Fault where
  | panic (p : Panic)
  | outOfFuel
  deriving DecidableEq, Repr

/-- Values of Go's `error` interface as built with `github.com/pkg/errors`: `errors.Errorf`
makes a fresh error, `errors.Wrapf` puts a context message in front of a cause.  A nil `error`
is `none : Option Error`. -/
inductive Error where
  | errorf (msg : String)
  | wrapf (cause : Error) (msg : String)
  deriving DecidableEq, Repr

/-- The text `Error()` returns: `errors.Wrapf(cause, msg).Error()` is `msg + ": " +
cause.Error()`. -/
def Error.message : Error → String
  | .errorf msg => msg
  | .wrapf cause msg => msg ++ ": " ++ cause.message

/-! ## Strings -/

/-- Go's slice expression `s[lo:hi]`; it panics unless `lo ≤ hi ≤ len(s)`. -/
def goSlice (s : String) (lo hi : Nat) : Except Fault String :=
  if lo ≤ hi ∧ hi ≤ s.length then .ok (String.mk ((s.data.take hi).drop lo))
  else .error (.panic .sliceBoundsOutOfRange)

/-- Pieces of a character list between occurrences of `sep`; never the empty list. -/
def splitChars (sep : Char) : List Char → List (List Char)
  | [] => [[]]
  | ch :: rest =>
    if ch = sep then [] :: splitChars sep rest
    else
      match splitChars sep rest with
      | [] => [[ch]]
      | piece :: pieces => (ch :: piece) :: pieces

/-- Go's `strings.Split(s, sep)` for a separator of one character. -/
def stringsSplit (s : String) (sep : Char) : List String :=
  (splitChars sep s.data).map String.mk

/-- The element `xs[len(xs)-1]` of a slice; indexing an empty slice panics. -/
def lastElem {α : Type} : List α → Except Fault α
  | [] => .error (.panic .indexOutOfRange)
  | [x] => .ok x
  | _ :: y :: rest => lastElem (y :: rest)

/-! ## The syntax tree (`go/ast`) -/

/-- A node `*ast.Ident`. -/
structure Ident where
  Name : String
  deriving DecidableEq, Repr

/-- A node `*ast.BasicLit`; `Value` is the literal as written, quotes included. -/
structure BasicLit where
  Value : String
  deriving DecidableEq, Repr

/-- A node `*ast.ImportSpec`: the optional local name and the quoted import path. -/
structure ImportSpec where
  Name : Option Ident
  Path : BasicLit
  deriving DecidableEq, Repr

mutual
/-- Type expressions `ast.Expr`.  `arrayType` is `*ast.ArrayType` (its `Len` is never read by
the generator); `other` stands for every node kind that `funcIdens` and `covertFuncType` have
no case for: map, channel, interface, struct and variadic types, and the nil expression. -/
inductive Expr where
  | ident (id : Ident)
  | selectorExpr (X : Expr) (Sel : Ident)
  | starExpr (X : Expr)
  | arrayType (Elt : Expr)
  | funcType (Params : Option (List Field)) (Results : Option (List Field))
  | other (kind : Nat)
/-- A node `*ast.Field`: the declared names and the type. -/
inductive Field where
  | mk (Names : List Ident) (Typ : Expr)
end

/-- Declared names of a field, `r.Names`. -/
def Field.Names : Field → List Ident
  | .mk names _ => names

/-- Type node of a field, `r.Type`. -/
def Field.Typ : Field → Expr
  | .mk _ typ => typ

/-- A node `*ast.FuncType`; a nil `*ast.FieldList` is `none`. -/
structure FuncType where
  Params : Option (List Field)
  Results : Option (List Field)

/-! ## Emitted code (`github.com/dave/jennifer/jen`) -/

/-- The items of a `jen.Statement` that the extractor produces. -/
inductive Token where
  | id (name : String)
  | op (op : String)
  | qual (path name : String)
  | dot (name : String)
  deriving DecidableEq, Repr

/-- A `*jen.Statement`: the items in the order they were added. -/
abbrev Statement := List Token

/-- A `jen.Code` holding a `*jen.Statement`, which may be the nil pointer. -/
abbrev Code := Option Statement

namespace jen

/-- The call `jen.Id(name)`. -/
def Id (name : String) : Statement := [Token.id name]

/-- The call `jen.Op(op)`. -/
def Op (op : String) : Statement := [Token.op op]

/-- The call `jen.Qual(path, name)`. -/
def Qual (path name : String) : Statement := [Token.qual path name]

end jen

/-- The method `(*jen.Statement).Id`: adds an identifier to the statement. -/
def Statement.Id (s : Statement) (name : String) : Statement := s ++ [Token.id name]

/-- The method `(*jen.Statement).Op`: adds an operator to the statement. -/
def Statement.Op (s : Statement) (op : String) : Statement := s ++ [Token.op op]

/-- The method `(*jen.Statement).Qual`: adds a qualified name to the statement. -/
def Statement.Qual (s : Statement) (path name : String) : Statement :=
  s ++ [Token.qual path name]

/-- The method `(*jen.Statement).Dot`: adds a field selection to the statement. -/
def Statement.Dot (s : Statement) (name : String) : Statement := s ++ [Token.dot name]

/-! ## The converter -/

/-- The struct `converter`. -/
structure converter where
  err : Option Error
  funcType : Option FuncType
  funcName : String
  imports : List ImportSpec

/-- The test `im.Name != nil && im.Name.Name == name` of `fromImports`. -/
def aliasIs (im : ImportSpec) (name : String) : Bool :=
  match im.Name with
  | some n => n.Name = name
  | none => false

/-- The loop of `fromImports` over the imports that are left; `path` is only read after it
has been assigned in the same iteration. -/
def fromImportsLoop (name : String) : List ImportSpec → Except Fault String
  | [] => .ok ""
  | im :: rest =>
    if im.Path.Value = "" then fromImportsLoop name rest
    else
      match goSlice im.Path.Value 1 (im.Path.Value.length - 1) with
      | .error f => .error f
      | .ok path =>
        if aliasIs im name then .ok path
        else
          match lastElem (stringsSplit path '/') with
          | .error f => .error f
          | .ok seg => if seg = name then .ok path else fromImportsLoop name rest

/-- The method `converter.fromImports`. -/
def converter.fromImports (c : converter) (name : String) : Except Fault String :=
  fromImportsLoop name c.imports

/-- The loop `for !parsed` of `funcIdens` on one field: `typ` is the current `r.Type`,
`statement` the statement built so far (`none` while it is nil).  It returns the last value of
`r.Type` and the statement.  A node without a case in the switch changes nothing, so the loop
goes round again. -/
def funcIdensLoop (c : converter) : Nat → Expr → Option Statement →
    Except Fault (Expr × Option Statement)
  | 0, _, _ => .error .outOfFuel
  | fuel + 1, typ, statement =>
    match typ with
    | .ident iden =>
      match statement with
      | none => .ok (typ, some (jen.Id iden.Name))
      | some s => .ok (typ, some (s.Id iden.Name))
    | .selectorExpr X Sel =>
      match X with
      | .ident x =>
        match c.fromImports x.Name with
        | .error f => .error f
        | .ok path =>
          match statement with
          | none => .ok (typ, some (jen.Qual path Sel.Name))
          | some s => .ok (typ, some (s.Qual path Sel.Name))
      | _ => .error (.panic .typeAssertion)
    | .starExpr X =>
      match statement with
      | none => funcIdensLoop c fuel X (some (jen.Op "*"))
      | some s => funcIdensLoop c fuel X (some (s.Op "*"))
    | .arrayType Elt =>
      match statement with
      | none => funcIdensLoop c fuel Elt (some (jen.Op "[]"))
      | some s => funcIdensLoop c fuel Elt (some (s.Op "[]"))
    | _ => funcIdensLoop c fuel typ statement

/-- The statement a field starts with in `funcIdens`: its first declared name, else the
synthesized name when `withID` is set, else nil. -/
def funcIdensStart (r : Field) (withID : Bool) (i : Nat) : Option Statement :=
  match r.Names with
  | n :: _ => some (jen.Id n.Name)
  | [] => if withID then some (jen.Id ("args" ++ toString i)) else none

/-- The loop `for i, r := range fields` of `funcIdens`, from index `i` on.  It returns the
fields as the loop leaves them (it assigns to `r.Type`) and the codes appended. -/
def funcIdensFrom (c : converter) (fuel : Nat) (withID : Bool) :
    Nat → List Field → Except Fault (List Field × List Code)
  | _, [] => .ok ([], [])
  | i, r :: rest =>
    match funcIdensLoop c fuel r.Typ (funcIdensStart r withID i) with
    | .error f => .error f
    | .ok (typ, statement) =>
      match funcIdensFrom c fuel withID (i + 1) rest with
      | .error f => .error f
      | .ok (rest', codes) => .ok (Field.mk r.Names typ :: rest', statement :: codes)

/-- The method `converter.funcIdens`; `fuel` bounds the iterations of each inner loop. -/
def converter.funcIdens (c : converter) (fuel : Nat) (fields : List Field) (withID : Bool) :
    Except Fault (List Field × List Code) :=
  funcIdensFrom c fuel withID 0 fields

/-- The method `converter.extractArguments`; `codes` is the caller's slice `*codes`, returned
with the converter after the call. -/
def converter.extractArguments (c : converter) (fuel : Nat) (codes : List Code) :
    Except Fault (converter × List Code) :=
  match c.err with
  | some _ => .ok (c, codes)
  | none =>
    match c.funcType with
    | none => .error (.panic .nilDereference)
    | some ft =>
      match ft.Params with
      | none => .error (.panic .nilDereference)
      | some list =>
        match c.funcIdens fuel list true with
        | .error f => .error f
        | .ok (list', idens) =>
          .ok ({ c with funcType := some { ft with Params := some list' } }, codes ++ idens)

/-- The method `converter.extractResults`. -/
def converter.extractResults (c : converter) (fuel : Nat) (codes : List Code) :
    Except Fault (converter × List Code) :=
  match c.err with
  | some _ => .ok (c, codes)
  | none =>
    match c.funcType with
    | none => .error (.panic .nilDereference)
    | some ft =>
      match ft.Results with
      | none => .error (.panic .nilDereference)
      | some list =>
        match c.funcIdens fuel list false with
        | .error f => .error f
        | .ok (list', idens) =>
          .ok ({ c with funcType := some { ft with Results := some list' } }, codes ++ idens)

/-- The method `converter.extractFuncName`; `name` is the caller's `*name`. -/
def converter.extractFuncName (c : converter) (name : String) : converter × String :=
  match c.err with
  | some _ => (c, name)
  | none => (c, c.funcName)

/-- The method `converter.error`. -/
def converter.error (c : converter) : Option Error := c.err

/-- The function `covertFuncType`.  In the branch `!ok` the error is assigned to the local
`err` and an empty converter is returned; in the other branch `method.Names[0]` is evaluated
whatever `len(method.Names)` is. -/
def covertFuncType (method : Field) (imports : List ImportSpec) : Except Fault converter :=
  match method.Typ with
  | .funcType params results =>
    let err : Option Error :=
      if method.Names.length = 0 then some (Error.errorf "func name is reqired") else none
    match method.Names with
    | [] => .error (.panic .indexOutOfRange)
    | n :: _ =>
      .ok { funcType := some ⟨params, results⟩, err := err, funcName := n.Name,
            imports := imports }
  | _ => .ok { err := none, funcType := none, funcName := "", imports := [] }

/-! ## The emission buffer and the visitor -/

/-- A statement of an emitted function body: `Return(head.Values(Dict{key: value, ...}))`. -/
structure ReturnValues where
  head : Statement
  dict : List (Statement × Statement)
  deriving DecidableEq, Repr

/-- A declaration in the emission buffer `spec.Buf` (a `*jen.File`):
`typeStruct name fields` is `Type().Id(name).Struct(fields...)` and
`funcDecl receiver name params results body` is
`Func().Params(receiver...).Id(name).Params(params...).Params(results...).Block(body...)`. -/
inductive Decl where
  | packageComment (text : String)
  | line
  | typeStruct (name : String) (fields : List Statement)
  | funcDecl (receiver : List Code) (name : String) (params results : List Code)
      (body : List ReturnValues)
  deriving DecidableEq, Repr

/-- Modelled from the spec: the declaration of `Verb` is missing from the sources.  The spec
has the verbs Get, List, Create, Patch and Delete; a verb is modelled by the text that `%s`
prints for it, so that there are verbs besides the five. -/
structure Verb where
  name : String
  deriving DecidableEq, Repr

namespace Verb

/-- Modelled from the spec: the verb constant `Get`. -/
def Get : Verb := ⟨"Get"⟩

/-- Modelled from the spec: the verb constant `Patch`. -/
def Patch : Verb := ⟨"Patch"⟩

/-- Modelled from the spec: the verb constant `Delete`. -/
def Delete : Verb := ⟨"Delete"⟩

/-- Modelled from the spec: the verb constant `List`. -/
def List : Verb := ⟨"List"⟩

/-- Modelled from the spec: the verb constant `Create`. -/
def Create : Verb := ⟨"Create"⟩

end Verb

/-- Modelled from the spec: the declaration of `ResourceType` is missing from the sources; the
spec calls it an enumerated category of resource.  The visitor only passes it on. -/
structure ResourceType where
  tag : Nat
  deriving DecidableEq, Repr

/-- Modelled from the spec: the type of `InterfaceFileSpec.ResourceMapping` is missing from the
sources; the spec calls it the mapping from resource category to URL template.  The visitor only
passes it on. -/
abbrev ResourceMapping := List (ResourceType × String)

/-- The fields of `InterfaceFileSpec` that the visitor reads; `Buf` is the content of the
`*jen.File`. -/
structure InterfaceFileSpec where
  Buf : List Decl
  SubResource : Bool
  ResourceMapping : ResourceMapping

/-- The struct `buildInfo`, as the composite literal in `visitorIntrefaceMethod` fills it.
`buf` and `method` are pointers in the source; here they are the objects pointed to. -/
structure buildInfo where
  interfaceStructName : String
  method : Field
  imports : List ImportSpec
  buf : List Decl
  resourceType : ResourceType
  subResource : Bool
  resource2UrlMapping : ResourceMapping

/-- The interface `interfaceMethodBuilder`.  A builder gets the build info and returns the
error together with the build info as the call leaves the objects it points to (the buffer it
emitted into, the method whose fields it extracted); it may also fail to return. -/
structure interfaceMethodBuilder where
  buildGetMethod : buildInfo → Except Fault (buildInfo × Option Error)
  buildPatchMethod : buildInfo → Except Fault (buildInfo × Option Error)
  buildDeleteMethod : buildInfo → Except Fault (buildInfo × Option Error)
  buildListMethod : buildInfo → Except Fault (buildInfo × Option Error)
  buildCreateMethod : buildInfo → Except Fault (buildInfo × Option Error)

/-- The struct `meshClientVisitor`. -/
structure meshClientVisitor where
  err : Option Error
  getterID : String
  resourceType : ResourceType
  builder : interfaceMethodBuilder

/-- What `strings.ToLower` makes of one byte that stands alone: an ASCII letter is lowered,
another ASCII byte is kept, and a byte above 127, which is not valid UTF-8 on its own, becomes
the three bytes of the replacement character U+FFFD. -/
def lowerByte (ch : Char) : List Char :=
  if ch.toNat < 128 then [ch.toLower] else ['\xEF', '\xBF', '\xBD']

/-- Go's `strings.ToLower` on strings of ASCII text and on strings of one byte; the generator
applies it to `name[0:1]` only. -/
def stringsToLower (s : String) : String := String.mk (s.data.flatMap lowerByte)

/-- The conversion `string(b)` of a byte to the UTF-8 encoding of the code point `b`: one byte
up to 127, two bytes above. -/
def byteToString (ch : Char) : String :=
  if ch.toNat < 128 then String.mk [ch]
  else String.mk [Char.ofNat (192 + ch.toNat / 64), Char.ofNat (128 + ch.toNat % 64)]

/-- The conversion `string(s[0])`; indexing the empty string panics. -/
def firstByteString (s : String) : Except Fault String :=
  match s.data with
  | [] => .error (.panic .indexOutOfRange)
  | ch :: _ => .ok (byteToString ch)

/-- The method `visitorResourceGetterConcreatStruct`: it emits the record type and remembers
its name. -/
def meshClientVisitor.visitorResourceGetterConcreatStruct (m : meshClientVisitor)
    (name : String) (spec : InterfaceFileSpec) :
    meshClientVisitor × InterfaceFileSpec × Option Error :=
  ({ m with getterID := name },
   { spec with Buf := spec.Buf ++
      [Decl.typeStruct name [(jen.Id "client").Qual "" "*meshClient"]] },
   none)

/-- The method `visitorInterfaceConcreatStruct`. -/
def meshClientVisitor.visitorInterfaceConcreatStruct (_m : meshClientVisitor)
    (name : String) (spec : InterfaceFileSpec) : InterfaceFileSpec × Option Error :=
  ({ spec with Buf := spec.Buf ++
      [Decl.typeStruct name [(jen.Id "client").Qual "" "*meshClient"]] },
   none)

/-- The expression `covertFuncType(method, imports).extractArguments(&arguments)
.extractResults(&results).error()` of `visitorResourceGetterMethod`, with `arguments` and
`results` starting as nil slices: the error and the two slices after the chain. -/
def extractChain (fuel : Nat) (method : Field) (imports : List ImportSpec) :
    Except Fault (Option Error × List Code × List Code) :=
  match covertFuncType method imports with
  | .error f => .error f
  | .ok c0 =>
    match c0.extractArguments fuel [] with
    | .error f => .error f
    | .ok (c1, arguments) =>
      match c1.extractResults fuel [] with
      | .error f => .error f
      | .ok (c2, results) => .ok (c2.error, arguments, results)

/-- The method `visitorResourceGetterMethod`: the file spec after the call and the error
returned. -/
def meshClientVisitor.visitorResourceGetterMethod (m : meshClientVisitor) (fuel : Nat)
    (name : String) (method : Field) (imports : List ImportSpec) (spec : InterfaceFileSpec) :
    Except Fault (InterfaceFileSpec × Option Error) :=
  match extractChain fuel method imports with
  | .error f => .error f
  | .ok (some err, _, _) =>
    .ok (spec, some (Error.wrapf err "extract arguments and result from method error"))
  | .ok (none, arguments, results) =>
    match firstByteString m.getterID with
    | .error f => .error f
    | .ok recv =>
      match goSlice name 0 1, goSlice name 1 name.length with
      | .ok first, .ok rest =>
        let structName := stringsToLower first ++ rest ++ "Interface"
        .ok ({ spec with Buf := spec.Buf ++
                [Decl.funcDecl [some (((jen.Id recv).Op "*").Id m.getterID)] name arguments
                  results
                  [{ head := (jen.Op "&").Id structName,
                     dict := [(jen.Id "client",
                               (jen.Id (stringsToLower first)).Dot "client")] }]] },
             none)
      | .error f, _ => .error f
      | _, .error f => .error f

/-- The method `visitorIntrefaceMethod`: the build info as the call leaves the objects it
points to, and the error returned.  A verb without a case leaves `err` nil. -/
def meshClientVisitor.visitorIntrefaceMethod (m : meshClientVisitor) (concreateStruct : String)
    (verb : Verb) (method : Field) (imports : List ImportSpec) (spec : InterfaceFileSpec) :
    Except Fault (buildInfo × Option Error) :=
  let info : buildInfo :=
    { interfaceStructName := concreateStruct
      method := method
      imports := imports
      buf := spec.Buf
      resourceType := m.resourceType
      subResource := spec.SubResource
      resource2UrlMapping := spec.ResourceMapping }
  let called : Except Fault (buildInfo × Option Error) :=
    if verb = Verb.Get then m.builder.buildGetMethod info
    else if verb = Verb.Patch then m.builder.buildPatchMethod info
    else if verb = Verb.Delete then m.builder.buildDeleteMethod info
    else if verb = Verb.List then m.builder.buildListMethod info
    else if verb = Verb.Create then m.builder.buildCreateMethod info
    else .ok (info, none)
  match called with
  | .error f => .error f
  | .ok (info', some err) =>
    .ok (info', some (Error.wrapf err ("build " ++ verb.name ++ " interface method error")))
  | .ok (info', none) => .ok (info', none)

/-- The method `visitorEnd`. -/
def meshClientVisitor.visitorEnd (_m : meshClientVisitor) (_spec : InterfaceFileSpec) :
    Option Error := none

/-- The method `onError`. -/
def meshClientVisitor.onError (m : meshClientVisitor) (e : Option Error) : meshClientVisitor :=
  { m with err := e }

/-! ## Shapes of type nodes -/

/-- The type node is built from plain identifiers, qualified identifiers `pkg.Name` (the
qualifier a plain identifier), pointers and sequences only. -/
def Expr.supported : Expr → Bool
  | .ident _ => true
  | .selectorExpr (.ident _) _ => true
  | .starExpr X => X.supported
  | .arrayType Elt => Elt.supported
  | _ => false

/-- Number of pointer and sequence levels above the first node that is neither. -/
def Expr.depth : Expr → Nat
  | .starExpr X => X.depth + 1
  | .arrayType Elt => Elt.depth + 1
  | _ => 0

/-- The markers of the pointer and sequence levels, outermost first. -/
def Expr.markers : Expr → List Token
  | .starExpr X => Token.op "*" :: X.markers
  | .arrayType Elt => Token.op "[]" :: Elt.markers
  | _ => []

/-- The node below all pointer and sequence levels. -/
def Expr.terminal : Expr → Expr
  | .starExpr X => X.terminal
  | .arrayType Elt => Elt.terminal
  | e => e

/-- What the switch of `funcIdens` does at a node that is neither pointer nor sequence: a plain
identifier gives its name, a qualified identifier the name qualified by the path that
`fromImports` resolves, a selector on anything else fails the type assertion, and any other
node is never left. -/
def terminalToken (c : converter) : Expr → Except Fault Token
  | .ident iden => .ok (Token.id iden.Name)
  | .selectorExpr (.ident x) Sel =>
    match c.fromImports x.Name with
    | .error f => .error f
    | .ok path => .ok (Token.qual path Sel.Name)
  | .selectorExpr _ _ => .error (.panic .typeAssertion)
  | _ => .error .outOfFuel

/-- The statement as a list of items, the nil statement having none. -/
def itemsOf (statement : Option Statement) : List Token := statement.getD []

/-- Every import path literal is empty or has room for its two quotes. -/
def quotedImports (imports : List ImportSpec) : Prop :=
  ∀ im ∈ imports, im.Path.Value = "" ∨ 2 ≤ im.Path.Value.length

/-- The field as `funcIdens` leaves it: same names, the type node replaced by the node below
its pointer and sequence levels. -/
def Field.settled (r : Field) : Field := Field.mk r.Names r.Typ.terminal

/-- A converter without error for a method `Get(int, string, bool)` whose three parameters have
no declared name. -/
def unnamedThree : converter :=
  { err := none
    funcType := some ⟨some [.mk [] (.ident ⟨"int"⟩), .mk [] (.ident ⟨"string"⟩),
      .mk [] (.ident ⟨"bool"⟩)], some []⟩
    funcName := "Get"
    imports := [] }

/-- A converter without error whose import table has the one import
`v1a "example.org/mod/v1alpha1"`. -/
def aliasedConverter : converter :=
  { err := none
    funcType := none
    funcName := "Get"
    imports := [⟨some ⟨"v1a"⟩, ⟨"\"example.org/mod/v1alpha1\""⟩⟩] }

/-- The type node `*[]v1a.T`: pointer to sequence of a qualified identifier. -/
def pointerToSequence : Expr :=
  .starExpr (.arrayType (.selectorExpr (.ident ⟨"v1a"⟩) ⟨"T"⟩))

/-- The import path of an import: its path literal without the first and the last character,
the quotes. -/
def ImportSpec.unquoted (im : ImportSpec) : String :=
  String.mk ((im.Path.Value.data.take (im.Path.Value.length - 1)).drop 1)

/-- What follows the last `/` in a list of characters, the whole list when it has none. -/
def afterLastSlash : List Char → List Char
  | [] => []
  | ch :: rest => if '/' ∈ ch :: rest then afterLastSlash rest else ch :: rest

/-- The final segment of a path: what follows its last `/`. -/
def finalSegment (path : String) : String := String.mk (afterLastSlash path.data)

/-- A converter without error whose import table has the one import
`"example.org/mod/v1alpha1"`, without alias. -/
def unaliasedConverter : converter :=
  { err := none
    funcType := none
    funcName := "Get"
    imports := [⟨none, ⟨"\"example.org/mod/v1alpha1\""⟩⟩] }

/-- A converter whose import table has one import, with a path literal of one character. -/
def loneQuoteConverter : converter :=
  { err := none
    funcType := none
    funcName := "Get"
    imports := [⟨none, ⟨"\""⟩⟩] }

/-- A converter whose import table is `"a/foo"` followed by `foo "b/bar"`. -/
def shadowedAliasConverter : converter :=
  { err := none
    funcType := none
    funcName := "Get"
    imports := [⟨none, ⟨"\"a/foo\""⟩⟩, ⟨some ⟨"foo"⟩, ⟨"\"b/bar\""⟩⟩] }

/-- A method field `Get` whose type node is the plain identifier `int`, not a function
type. -/
def notAFuncMethod : Field := .mk [⟨"Get"⟩] (.ident ⟨"int"⟩)

/-- A builder whose five methods emit nothing and return no error. -/
def idleBuilder : interfaceMethodBuilder :=
  { buildGetMethod := fun info => .ok (info, none)
    buildPatchMethod := fun info => .ok (info, none)
    buildDeleteMethod := fun info => .ok (info, none)
    buildListMethod := fun info => .ok (info, none)
    buildCreateMethod := fun info => .ok (info, none) }

/-- A visitor that has emitted the getter record `ServiceGetter`. -/
def serviceVisitor : meshClientVisitor :=
  { err := none, getterID := "ServiceGetter", resourceType := ⟨0⟩, builder := idleBuilder }

/-- A file spec with an empty buffer. -/
def emptySpec : InterfaceFileSpec := { Buf := [], SubResource := false, ResourceMapping := [] }

/-- One call of a chain on a converter: which extraction method, and which of the caller's
variables its pointer argument points to. -/
inductive ExtractCall where
  | arguments (slot : Nat)
  | results (slot : Nat)
  | funcName (slot : Nat)
  deriving DecidableEq, Repr

/-- The caller's variables a chain can write to: slices of codes and names. -/
structure Outputs where
  slices : Nat → List Code
  names : Nat → String

/-- One call of a chain: the converter and the caller's variables after it. -/
def runCall (fuel : Nat) : ExtractCall → converter × Outputs → Except Fault (converter × Outputs)
  | .arguments slot, (c, out) =>
    match c.extractArguments fuel (out.slices slot) with
    | .error f => .error f
    | .ok (c', codes) => .ok (c', { out with slices := Function.update out.slices slot codes })
  | .results slot, (c, out) =>
    match c.extractResults fuel (out.slices slot) with
    | .error f => .error f
    | .ok (c', codes) => .ok (c', { out with slices := Function.update out.slices slot codes })
  | .funcName slot, (c, out) =>
    .ok ((c.extractFuncName (out.names slot)).1,
      { out with names := Function.update out.names slot (c.extractFuncName (out.names slot)).2 })

/-- A chain of calls `c.f1(&x1).f2(&x2)...`, each on the converter the one before returned. -/
def runChain (fuel : Nat) : List ExtractCall → converter × Outputs →
    Except Fault (converter × Outputs)
  | [], st => .ok st
  | call :: rest, st =>
    match runCall fuel call st with
    | .error f => .error f
    | .ok st' => runChain fuel rest st'

/-- The converter's signature can be extracted: both field lists are there, every type node is
built from plain identifiers, qualified identifiers, pointers and sequences and nests less than
`fuel` levels deep, and the import path literals have room for their quotes. -/
def converter.extractable (c : converter) (fuel : Nat) : Prop :=
  ∃ ft ps rs, c.funcType = some ft ∧ ft.Params = some ps ∧ ft.Results = some rs ∧
    (∀ r ∈ ps, r.Typ.supported = true ∧ r.Typ.depth < fuel) ∧
    (∀ r ∈ rs, r.Typ.supported = true ∧ r.Typ.depth < fuel) ∧
    quotedImports c.imports

/-- A converter that carries the error `func name is reqired`. -/
def erroredConverter : converter :=
  { unnamedThree with err := some (Error.errorf "func name is reqired") }

/-- Caller variables that are all empty. -/
def blankOutputs : Outputs := { slices := fun _ => [], names := fun _ => "" }

/-- The dispatch table of `visitorIntrefaceMethod`: the builder method that belongs to a verb,
none for a verb that is not one of the five. -/
def dispatch (b : interfaceMethodBuilder) (verb : Verb) :
    Option (buildInfo → Except Fault (buildInfo × Option Error)) :=
  if verb = Verb.Get then some b.buildGetMethod
  else if verb = Verb.Patch then some b.buildPatchMethod
  else if verb = Verb.Delete then some b.buildDeleteMethod
  else if verb = Verb.List then some b.buildListMethod
  else if verb = Verb.Create then some b.buildCreateMethod
  else none

/-- The context message `visitorIntrefaceMethod` wraps a builder's error with. -/
def verbContext (verb : Verb) : String := "build " ++ verb.name ++ " interface method error"

/-- A builder that records its calls: each method adds one comment with its own name and the
record name it was given to the buffer, and returns no error. -/
def tracingBuilder : interfaceMethodBuilder :=
  let trace (who : String) (info : buildInfo) : Except Fault (buildInfo × Option Error) :=
    .ok ({ info with buf := info.buf ++
      [Decl.packageComment (who ++ " " ++ info.interfaceStructName)] }, none)
  { buildGetMethod := trace "buildGetMethod"
    buildPatchMethod := trace "buildPatchMethod"
    buildDeleteMethod := trace "buildDeleteMethod"
    buildListMethod := trace "buildListMethod"
    buildCreateMethod := trace "buildCreateMethod" }

/-- A builder that never returns: each method panics. -/
def faultyBuilder : interfaceMethodBuilder :=
  { buildGetMethod := fun _ => .error (.panic .nilDereference)
    buildPatchMethod := fun _ => .error (.panic .nilDereference)
    buildDeleteMethod := fun _ => .error (.panic .nilDereference)
    buildListMethod := fun _ => .error (.panic .nilDereference)
    buildCreateMethod := fun _ => .error (.panic .nilDereference) }

/-- The build info `visitorIntrefaceMethod` fills in: the record name argument, the method
argument, the imports argument, the file spec's buffer, the visitor's resource type, the file
spec's sub-resource flag and the file spec's resource mapping. -/
def buildInfoOf (m : meshClientVisitor) (concreateStruct : String) (method : Field)
    (imports : List ImportSpec) (spec : InterfaceFileSpec) : buildInfo :=
  { interfaceStructName := concreateStruct
    method := method
    imports := imports
    buf := spec.Buf
    resourceType := m.resourceType
    subResource := spec.SubResource
    resource2UrlMapping := spec.ResourceMapping }

/-- What `visitorIntrefaceMethod` returns after its builder returned: the builder's fault, or
the state the builder left with the builder's error wrapped in the verb's context. -/
def wrapResult (verb : Verb) :
    Except Fault (buildInfo × Option Error) → Except Fault (buildInfo × Option Error)
  | .error f => .error f
  | .ok (info', berr) => .ok (info', berr.map (fun e => Error.wrapf e (verbContext verb)))

/-- A builder whose methods emit nothing and return the error `no url template`. -/
def failingBuilder : interfaceMethodBuilder :=
  { buildGetMethod := fun info => .ok (info, some (Error.errorf "no url template"))
    buildPatchMethod := fun info => .ok (info, some (Error.errorf "no url template"))
    buildDeleteMethod := fun info => .ok (info, some (Error.errorf "no url template"))
    buildListMethod := fun info => .ok (info, some (Error.errorf "no url template"))
    buildCreateMethod := fun info => .ok (info, some (Error.errorf "no url template")) }

/-- A method field `Get(name string) (*Service, error)`. -/
def getMethod : Field :=
  .mk [⟨"Get"⟩] (.funcType (some [.mk [⟨"name"⟩] (.ident ⟨"string"⟩)])
    (some [.mk [] (.starExpr (.ident ⟨"Service"⟩)), .mk [] (.ident ⟨"error"⟩)]))

/-- The function `NewVisitor`.  The builder it installs, `&interfaceBuilder{}`, is declared
outside the sources at hand and is passed in. -/
def NewVisitor (resourceType : ResourceType) (builder : interfaceMethodBuilder) :
    meshClientVisitor :=
  { err := none, getterID := "", resourceType := resourceType, builder := builder }

/-- The getter method field `Service(name string) ServiceInterface`. -/
def serviceGetterMethod : Field :=
  .mk [⟨"Service"⟩] (.funcType (some [.mk [⟨"name"⟩] (.ident ⟨"string"⟩)])
    (some [.mk [] (.ident ⟨"ServiceInterface"⟩)]))

/-- The receiver identifier that an emitted method declares, when it declares one. -/
def Decl.receiverName : Decl → Option String
  | .funcDecl [some (Token.id recv :: _)] _ _ _ _ => some recv
  | _ => none

/-- The identifier whose `client` field the body of an emitted factory method reads. -/
def Decl.clientSource : Decl → Option String
  | .funcDecl _ _ _ _ [⟨_, [(_, Token.id src :: Token.dot "client" :: _)]⟩] => some src
  | _ => none

/-- A parameter `svc *Service`. -/
def pointerField : Field := .mk [⟨"svc"⟩] (.starExpr (.ident ⟨"Service"⟩))

/-- The identifier a field's descriptor starts with in a result list: the first declared name,
nothing for a field without names. -/
def declaredName (r : Field) : List Token :=
  match r.Names with
  | n :: _ => [Token.id n.Name]
  | [] => []

/-- A converter without error for a method with the results `(svc *Service, error)`. -/
def namedResultConverter : converter :=
  { err := none
    funcType := some ⟨some [], some [pointerField, .mk [] (.ident ⟨"error"⟩)]⟩
    funcName := "Get"
    imports := [] }

/-- A field `a, b T` that declares two names for one type. -/
def twoNameField : Field := .mk [⟨"a"⟩, ⟨"b"⟩] (.ident ⟨"T"⟩)

/-- A converter whose import table has the one import `x "a/foo"`. -/
def otherAliasConverter : converter :=
  { err := none
    funcType := none
    funcName := "Get"
    imports := [⟨some ⟨"x"⟩, ⟨"\"a/foo\""⟩⟩] }

/-- The node is of a kind the switch of `funcIdens` has no case for. -/
def Expr.noCase : Expr → Bool
  | .funcType _ _ => true
  | .other _ => true
  | _ => false

/-- An unnamed field of the qualified type `v1a.T`. -/
def qualifiedField : Field := .mk [] (.selectorExpr (.ident ⟨"v1a"⟩) ⟨"T"⟩)

/-- An unnamed field whose type is of a node kind without a case, such as `map[string]int`. -/
def mapField : Field := .mk [] (.other 0)

/-- The item is a pointer marker or a sequence marker. -/
def Token.isMarker : Token → Bool
  | .op o => o = "*" || o = "[]"
  | _ => false

/-- The descriptor without its pointer and sequence markers. -/
def stripMarkers (code : Code) : Code :=
  code.map (fun statement => statement.filter (fun t => !t.isMarker))

/-- The method declaration `visitorResourceGetterMethod` emits for the getter record whose name
starts with the byte `g`, the method name `x` followed by `xs`, and the extracted parameter and
result descriptors. -/
def getterMethodDecl (getterID : String) (g x : Char) (xs : List Char)
    (arguments results : List Code) : Decl :=
  .funcDecl [some [.id (byteToString g), .op "*", .id getterID]] (String.mk (x :: xs))
    arguments results
    [{ head := [.op "&", .id (stringsToLower (String.mk [x]) ++ String.mk xs ++ "Interface")],
       dict := [([.id "client"], [.id (stringsToLower (String.mk [x])), .dot "client"])] }]

/-- The fresh visitor after `visitorResourceGetterConcreatStruct("ServiceGetter", spec)` on an
empty buffer: the visitor, the file spec and the error. -/
def serviceGetterEmitted : meshClientVisitor × InterfaceFileSpec × Option Error :=
  (NewVisitor ⟨0⟩ idleBuilder).visitorResourceGetterConcreatStruct "ServiceGetter" emptySpec

/-- The declaration `func (S *ServiceGetter) Service(name string) ServiceInterface
{ return &serviceInterface{client: s.client} }`. -/
def serviceFactoryDecl : Decl :=
  .funcDecl [some [.id "S", .op "*", .id "ServiceGetter"]] "Service"
    [some [.id "name", .id "string"]] [some [.id "ServiceInterface"]]
    [{ head := [.op "&", .id "serviceInterface"],
       dict := [([.id "client"], [.id "s", .dot "client"])] }]

/-! ## Theorems -/

theorem funcIdensLoop_stuck (c : converter) (fuel : Nat) (typ : Expr) (st : Option Statement)
    (h1 : ∀ i, typ ≠ .ident i) (h2 : ∀ x s, typ ≠ .selectorExpr x s)
    (h3 : ∀ x, typ ≠ .starExpr x) (h4 : ∀ x, typ ≠ .arrayType x) :
    funcIdensLoop c fuel typ st = .error .outOfFuel := by
  induction fuel with
  | zero => rfl
  | succ n ih =>
    cases typ with
    | ident i => exact absurd rfl (h1 i)
    | selectorExpr x s => exact absurd rfl (h2 x s)
    | starExpr x => exact absurd rfl (h3 x)
    | arrayType x => exact absurd rfl (h4 x)
    | funcType p r => simpa [funcIdensLoop] using ih
    | other k => simpa [funcIdensLoop] using ih

theorem funcIdensLoop_eq (c : converter) (fuel : Nat) (typ : Expr) (st : Option Statement)
    (h : typ.depth < fuel) :
    funcIdensLoop c fuel typ st =
      match terminalToken c typ.terminal with
      | .error f => .error f
      | .ok tok => .ok (typ.terminal, some (itemsOf st ++ typ.markers ++ [tok])) := by
  induction fuel generalizing typ st with
  | zero => omega
  | succ n ih =>
    cases typ with
    | ident i =>
      cases st <;> simp [funcIdensLoop, terminalToken, Expr.terminal, Expr.markers, itemsOf,
        jen.Id, Statement.Id]
    | selectorExpr x s =>
      cases x <;> simp [funcIdensLoop, terminalToken, Expr.terminal, Expr.markers]
      cases c.fromImports _ <;> cases st <;> simp [itemsOf, jen.Qual, Statement.Qual]
    | starExpr x =>
      have hd : x.depth < n := by simp [Expr.depth] at h; omega
      cases st <;> simp [funcIdensLoop, ih x _ hd, Expr.terminal, Expr.markers, itemsOf,
        jen.Op, Statement.Op]
    | arrayType x =>
      have hd : x.depth < n := by simp [Expr.depth] at h; omega
      cases st <;> simp [funcIdensLoop, ih x _ hd, Expr.terminal, Expr.markers, itemsOf,
        jen.Op, Statement.Op]
    | funcType p r =>
      rw [funcIdensLoop_stuck c _ _ _ (by simp) (by simp) (by simp) (by simp)]
      simp [terminalToken, Expr.terminal]
    | other k =>
      rw [funcIdensLoop_stuck c _ _ _ (by simp) (by simp) (by simp) (by simp)]
      simp [terminalToken, Expr.terminal]

theorem splitChars_ne_nil (sep : Char) (l : List Char) : splitChars sep l ≠ [] := by
  induction l with
  | nil => simp [splitChars]
  | cons ch rest ih =>
    simp only [splitChars]
    split
    · simp
    · split <;> simp

theorem lastElem_ok {α : Type} (l : List α) (h : l ≠ []) : ∃ x, lastElem l = .ok x := by
  induction l with
  | nil => exact absurd rfl h
  | cons a t ih =>
    cases t with
    | nil => exact ⟨a, rfl⟩
    | cons b t2 => simpa [lastElem] using ih (by simp)

theorem lastElem_stringsSplit_ok (s : String) (sep : Char) :
    ∃ seg, lastElem (stringsSplit s sep) = .ok seg := by
  apply lastElem_ok
  simp [stringsSplit, splitChars_ne_nil]

theorem goSlice_inner_ok (v : String) (h : 2 ≤ v.length) :
    ∃ p, goSlice v 1 (v.length - 1) = .ok p := by
  refine ⟨String.mk ((v.data.take (v.length - 1)).drop 1), ?_⟩
  have : 1 ≤ v.length - 1 ∧ v.length - 1 ≤ v.length := by omega
  simp [goSlice, this]

theorem fromImportsLoop_returns (name : String) (imports : List ImportSpec)
    (h : quotedImports imports) : ∃ p, fromImportsLoop name imports = .ok p := by
  induction imports with
  | nil => exact ⟨"", rfl⟩
  | cons im rest ih =>
    have hrest : quotedImports rest := fun x hx => h x (List.mem_cons_of_mem _ hx)
    obtain ⟨p, hp⟩ := ih hrest
    simp only [fromImportsLoop]
    by_cases hv : im.Path.Value = ""
    · simp [hv, hp]
    · have hlen : 2 ≤ im.Path.Value.length := by
        rcases h im (List.mem_cons_self _ _) with h0 | h2
        · exact absurd h0 hv
        · exact h2
      obtain ⟨q, hq⟩ := goSlice_inner_ok _ hlen
      obtain ⟨seg, hseg⟩ := lastElem_stringsSplit_ok q '/'
      simp only [hv, if_false, hq, hseg]
      by_cases ha : aliasIs im name = true
      · simp [ha]
      · by_cases hs : seg = name
        · simp [ha, hs]
        · simp [ha, hs, hp]

theorem terminalToken_ok (c : converter) (hq : quotedImports c.imports) :
    (typ : Expr) → typ.supported = true → ∃ tok, terminalToken c typ.terminal = .ok tok
  | .ident i, _ => ⟨_, rfl⟩
  | .selectorExpr x s, hs => by
    cases x with
    | ident x =>
      obtain ⟨p, hp⟩ := fromImportsLoop_returns x.Name c.imports hq
      exact ⟨Token.qual p s.Name, by
        simp [Expr.terminal, terminalToken, converter.fromImports, hp]⟩
    | _ => simp [Expr.supported] at hs
  | .starExpr x, hs => terminalToken_ok c hq x (by simpa [Expr.supported] using hs)
  | .arrayType x, hs => terminalToken_ok c hq x (by simpa [Expr.supported] using hs)
  | .funcType p r, hs => by simp [Expr.supported] at hs
  | .other k, hs => by simp [Expr.supported] at hs

theorem funcIdensFrom_ok (c : converter) (fuel : Nat) (withID : Bool) (fields : List Field)
    (i : Nat) (hd : ∀ r ∈ fields, r.Typ.depth < fuel)
    (ht : ∀ r ∈ fields, ∃ tok, terminalToken c r.Typ.terminal = .ok tok) :
    ∃ codes, funcIdensFrom c fuel withID i fields = .ok (fields.map Field.settled, codes) ∧
      codes.length = fields.length ∧
      ∀ k r, fields[k]? = some r → ∃ tok, terminalToken c r.Typ.terminal = .ok tok ∧
        codes[k]? = some (some (itemsOf (funcIdensStart r withID (i + k)) ++ r.Typ.markers
          ++ [tok])) := by
  induction fields generalizing i with
  | nil => exact ⟨[], rfl, rfl, by simp⟩
  | cons r rest ih =>
    obtain ⟨codes, hrun, hlen, hidx⟩ := ih (i + 1)
      (fun x hx => hd x (List.mem_cons_of_mem _ hx))
      (fun x hx => ht x (List.mem_cons_of_mem _ hx))
    obtain ⟨tok, htok⟩ := ht r (List.mem_cons_self _ _)
    have hloop := funcIdensLoop_eq c fuel r.Typ (funcIdensStart r withID i)
      (hd r (List.mem_cons_self _ _))
    rw [htok] at hloop
    refine ⟨some (itemsOf (funcIdensStart r withID i) ++ r.Typ.markers ++ [tok]) :: codes,
      ?_, by simp [hlen], ?_⟩
    · simp [funcIdensFrom, hloop, hrun, Field.settled]
    · intro k x hk
      cases k with
      | zero =>
        simp at hk
        subst hk
        exact ⟨tok, htok, by simp⟩
      | succ k =>
        simp at hk
        obtain ⟨tok2, h1, h2⟩ := hidx k x hk
        refine ⟨tok2, h1, ?_⟩
        simp [h2, Nat.add_assoc, Nat.add_comm 1 k]

theorem markers_length : (typ : Expr) → typ.markers.length = typ.depth
  | .ident _ => rfl
  | .selectorExpr _ _ => rfl
  | .starExpr X => by simp [Expr.markers, Expr.depth, markers_length X]
  | .arrayType X => by simp [Expr.markers, Expr.depth, markers_length X]
  | .funcType _ _ => rfl
  | .other _ => rfl

theorem terminal_of_supported (c : converter) :
    (typ : Expr) → typ.supported = true →
    (∃ n, typ.terminal = .ident n ∧ terminalToken c typ.terminal = .ok (Token.id n.Name)) ∨
    (∃ pkg sel, typ.terminal = .selectorExpr (.ident pkg) sel ∧
      terminalToken c typ.terminal =
        match c.fromImports pkg.Name with
        | .error f => .error f
        | .ok path => .ok (Token.qual path sel.Name))
  | .ident i, _ => Or.inl ⟨i, rfl, rfl⟩
  | .selectorExpr x s, hs => by
    cases x with
    | ident x => exact Or.inr ⟨x, s, rfl, rfl⟩
    | _ => simp [Expr.supported] at hs
  | .starExpr X, hs => terminal_of_supported c X (by simpa [Expr.supported] using hs)
  | .arrayType X, hs => terminal_of_supported c X (by simpa [Expr.supported] using hs)
  | .funcType _ _, hs => by simp [Expr.supported] at hs
  | .other _, hs => by simp [Expr.supported] at hs

/-- C1, counterexample: on a method with three unnamed parameters `int, string, bool`,
`extractArguments` names them `args0`, `args1`, `args2`; with no amount of fuel does it return
descriptors that start with `arg0`, `arg1`, `arg2`.  Moreover an unnamed parameter gets no name
at all when its type is of a kind the switch has no case for (the loop never ends) or when a
qualified type meets a path literal of one character (the slice panics). -/
theorem extractArguments_argN_counterexample :
    (Prod.snd <$> unnamedThree.extractArguments 1 []) =
        .ok [some [.id "args0", .id "int"], some [.id "args1", .id "string"],
             some [.id "args2", .id "bool"]] ∧
    (¬ ∃ fuel c' ds, unnamedThree.extractArguments fuel [] = .ok (c', ds) ∧
        ∀ N, N < 3 →
          ∃ rest, ds[N]? = some (some (Token.id ("arg" ++ toString N) :: rest))) ∧
    (∀ fuel, ({ unnamedThree with
        funcType := some ⟨some [.mk [] (.other 0)], some []⟩ }).extractArguments fuel [] =
      .error .outOfFuel) ∧
    ({ unnamedThree with
        funcType := some ⟨some [.mk [] (.selectorExpr (.ident ⟨"v1a"⟩) ⟨"T"⟩)], some []⟩
        imports := [⟨none, ⟨"\""⟩⟩] }).extractArguments 1 [] =
      .error (.panic .sliceBoundsOutOfRange) := by
  refine ⟨rfl, ?_, ?_, rfl⟩
  · rintro ⟨fuel, c', ds, hrun, hname⟩
    cases fuel with
    | zero =>
      simp [converter.extractArguments, unnamedThree, converter.funcIdens, funcIdensFrom,
        funcIdensLoop, Field.Typ] at hrun
    | succ n =>
      simp [converter.extractArguments, unnamedThree, converter.funcIdens, funcIdensFrom,
        funcIdensLoop, funcIdensStart, Field.Typ, Field.Names, jen.Id, Statement.Id] at hrun
      obtain ⟨rest, hrest⟩ := hname 0 (by decide)
      rw [← hrun.2] at hrest
      simp at hrest
      exact absurd hrest.1 (by decide)
  · intro fuel
    simp [converter.extractArguments, unnamedThree, converter.funcIdens, funcIdensFrom,
      Field.Typ, funcIdensLoop_stuck]

/-- C1, as amended: for a converter without error whose parameter list has no declared name,
types built from plain identifiers, qualified identifiers, pointers and sequences, and
quoted import paths, `extractArguments` returns (given fuel above the nesting depth), appends
one descriptor per field to the caller's slice, and the descriptor at zero-based position `N`
starts with the synthesized identifier `argsN`. -/
theorem extractArguments_synthesizes_argsN (c : converter) (ft : FuncType) (ps : List Field)
    (fuel : Nat) (codes : List Code)
    (herr : c.err = none) (hft : c.funcType = some ft) (hps : ft.Params = some ps)
    (hnames : ∀ r ∈ ps, r.Names = [])
    (hsup : ∀ r ∈ ps, r.Typ.supported = true)
    (hfuel : ∀ r ∈ ps, r.Typ.depth < fuel)
    (himp : quotedImports c.imports) :
    ∃ c' ds, c.extractArguments fuel codes = .ok (c', codes ++ ds) ∧
      ds.length = ps.length ∧
      ∀ N, N < ps.length →
        ∃ rest, ds[N]? = some (some (Token.id ("args" ++ toString N) :: rest)) := by
  obtain ⟨ds, hrun, hlen, hidx⟩ := funcIdensFrom_ok c fuel true ps 0 hfuel
    (fun r hr => terminalToken_ok c himp r.Typ (hsup r hr))
  refine ⟨{ c with funcType := some { ft with Params := some (ps.map Field.settled) } }, ds,
    ?_, hlen, ?_⟩
  · simp [converter.extractArguments, herr, hft, hps, converter.funcIdens, hrun]
  · intro N hN
    obtain ⟨r, hr⟩ : ∃ r, ps[N]? = some r := ⟨ps[N], by simp [hN]⟩
    obtain ⟨tok, -, hcode⟩ := hidx N r hr
    have hmem : r ∈ ps := List.getElem?_mem hr
    refine ⟨r.Typ.markers ++ [tok], ?_⟩
    simp [hcode, funcIdensStart, hnames r hmem, itemsOf, jen.Id]

/-- C1, witness: the amended statement at the three unnamed parameters `int, string, bool`. -/
theorem extractArguments_synthesizes_argsN_witness :
    ∃ c' ds, unnamedThree.extractArguments 1 [] = .ok (c', [] ++ ds) ∧
      ds.length = 3 ∧
      ∀ N, N < 3 →
        ∃ rest, ds[N]? = some (some (Token.id ("args" ++ toString N) :: rest)) :=
  extractArguments_synthesizes_argsN unnamedThree
    ⟨some [.mk [] (.ident ⟨"int"⟩), .mk [] (.ident ⟨"string"⟩), .mk [] (.ident ⟨"bool"⟩)],
      some []⟩ _ 1 [] rfl rfl rfl (by decide) (by decide) (by decide)
    (by intro im him; cases him)

/-- C2: for a field whose type node is built from plain identifiers, qualified identifiers,
pointers and sequences, `funcIdens` (given fuel above the nesting depth) leaves the field at
its innermost node and yields one descriptor: the name the field starts with, then one marker
per pointer or sequence level, outermost first, then the terminal name, which is the plain
identifier or the name qualified by the path `fromImports` resolves (a panic of `fromImports`
is passed on).  Pointer to sequence of `pkg.T` gives `*`, `[]`, `pkg.T`; sequence of pointer
gives `[]`, `*`, `pkg.T`. -/
theorem funcIdens_markers_mirror_nesting (c : converter) (names : List Ident) (typ : Expr)
    (withID : Bool) (fuel : Nat) (hs : typ.supported = true) (hd : typ.depth < fuel) :
    (c.funcIdens fuel [Field.mk names typ] withID =
      match terminalToken c typ.terminal with
      | .error f => .error f
      | .ok tok => .ok ([Field.mk names typ.terminal],
          [some (itemsOf (funcIdensStart (Field.mk names typ) withID 0) ++ typ.markers
            ++ [tok])])) ∧
    typ.markers.length = typ.depth ∧
    ((∃ n, typ.terminal = .ident n ∧ terminalToken c typ.terminal = .ok (Token.id n.Name)) ∨
     (∃ pkg sel, typ.terminal = .selectorExpr (.ident pkg) sel ∧
        terminalToken c typ.terminal =
          match c.fromImports pkg.Name with
          | .error f => .error f
          | .ok path => .ok (Token.qual path sel.Name))) ∧
    (∀ pkg T : Ident,
      c.funcIdens 3 [Field.mk names (.starExpr (.arrayType (.selectorExpr (.ident pkg) T)))]
          withID =
        match c.fromImports pkg.Name with
        | .error f => .error f
        | .ok path => .ok ([Field.mk names (.selectorExpr (.ident pkg) T)],
            [some (itemsOf (funcIdensStart (Field.mk names (.selectorExpr (.ident pkg) T))
                withID 0) ++ [Token.op "*", Token.op "[]", Token.qual path T.Name])])) ∧
    (∀ pkg T : Ident,
      c.funcIdens 3 [Field.mk names (.arrayType (.starExpr (.selectorExpr (.ident pkg) T)))]
          withID =
        match c.fromImports pkg.Name with
        | .error f => .error f
        | .ok path => .ok ([Field.mk names (.selectorExpr (.ident pkg) T)],
            [some (itemsOf (funcIdensStart (Field.mk names (.selectorExpr (.ident pkg) T))
                withID 0) ++ [Token.op "[]", Token.op "*", Token.qual path T.Name])])) := by
  have one : ∀ (t : Expr) (n : Nat), t.depth < n →
      c.funcIdens n [Field.mk names t] withID =
        match terminalToken c t.terminal with
        | .error f => .error f
        | .ok tok => .ok ([Field.mk names t.terminal],
            [some (itemsOf (funcIdensStart (Field.mk names t) withID 0) ++ t.markers
              ++ [tok])]) := by
    intro t n hn
    simp only [converter.funcIdens, funcIdensFrom, Field.Typ, funcIdensLoop_eq c n t _ hn]
    cases terminalToken c t.terminal <;> rfl
  refine ⟨one typ fuel hd, ?_, ?_, ?_, ?_⟩
  · exact markers_length typ
  · exact terminal_of_supported c typ hs
  · intro pkg T
    rw [one _ 3 (by simp [Expr.depth])]
    simp only [Expr.terminal, terminalToken, Expr.markers]
    cases c.fromImports pkg.Name <;> simp [funcIdensStart, Field.Names]
  · intro pkg T
    rw [one _ 3 (by simp [Expr.depth])]
    simp only [Expr.terminal, terminalToken, Expr.markers]
    cases c.fromImports pkg.Name <;> simp [funcIdensStart, Field.Names]

/-- C2, witness: the unnamed parameter `*[]v1a.T` under the import
`v1a "example.org/mod/v1alpha1"` yields `args0 *[]example.org/mod/v1alpha1.T`. -/
theorem funcIdens_markers_mirror_nesting_witness :
    aliasedConverter.funcIdens 3 [Field.mk [] pointerToSequence] true =
      .ok ([Field.mk [] (.selectorExpr (.ident ⟨"v1a"⟩) ⟨"T"⟩)],
        [some [.id "args0", .op "*", .op "[]", .qual "example.org/mod/v1alpha1" "T"]]) :=
  (funcIdens_markers_mirror_nesting aliasedConverter [] pointerToSequence true 3
    (by decide) (by decide)).1.trans rfl

theorem splitChars_no_sep (sep : Char) (l : List Char) (h : sep ∉ l) :
    splitChars sep l = [l] := by
  induction l with
  | nil => rfl
  | cons ch rest ih =>
    simp only [List.mem_cons, not_or] at h
    have hne : ¬ ch = sep := fun e => h.1 e.symm
    simp [splitChars, hne, ih h.2]

theorem lastElem_cons {α : Type} (a : α) (l : List α) (h : l ≠ []) :
    lastElem (a :: l) = lastElem l := by
  cases l with
  | nil => exact absurd rfl h
  | cons b t => rfl

theorem splitChars_two (sep : Char) (l : List Char) (h : sep ∈ l) :
    ∃ a b t, splitChars sep l = a :: b :: t := by
  induction l with
  | nil => simp at h
  | cons ch rest ih =>
    by_cases hc : ch = sep
    · cases hsplit : splitChars sep rest with
      | nil => exact absurd hsplit (splitChars_ne_nil sep rest)
      | cons b t => exact ⟨[], b, t, by simp [splitChars, hc, hsplit]⟩
    · have hr : sep ∈ rest := by
        rcases List.mem_cons.mp h with e | e
        · exact absurd e.symm hc
        · exact e
      obtain ⟨a, b, t, hsplit⟩ := ih hr
      exact ⟨ch :: a, b, t, by simp [splitChars, hc, hsplit]⟩

theorem lastElem_splitChars (l : List Char) :
    lastElem (splitChars '/' l) = .ok (afterLastSlash l) := by
  induction l with
  | nil => rfl
  | cons ch rest ih =>
    by_cases hc : ch = '/'
    · subst hc
      simp [splitChars, afterLastSlash, lastElem_cons _ _ (splitChars_ne_nil '/' rest), ih]
    · by_cases hr : '/' ∈ rest
      · have hmem : '/' ∈ ch :: rest := List.mem_cons_of_mem _ hr
        simp only [splitChars, hc, if_false, afterLastSlash, hmem, if_true]
        rw [← ih]
        obtain ⟨a, b, t, hsplit⟩ := splitChars_two '/' rest hr
        rw [hsplit]
        rfl
      · have hmem : '/' ∉ ch :: rest := by
          simp only [List.mem_cons, not_or]
          exact ⟨fun e => hc e.symm, hr⟩
        rw [splitChars_no_sep '/' _ hmem]
        simp [afterLastSlash, hmem, lastElem]

theorem lastElem_map {α β : Type} (f : α → β) (l : List α) (x : α)
    (h : lastElem l = .ok x) : lastElem (l.map f) = .ok (f x) := by
  induction l with
  | nil => simp [lastElem] at h
  | cons a t ih =>
    cases t with
    | nil =>
      simp only [lastElem, Except.ok.injEq] at h
      simp [lastElem, h]
    | cons b t2 =>
      simp only [lastElem] at h
      simpa [lastElem] using ih h

theorem fromImportsLoop_cons_empty (name : String) (im : ImportSpec) (rest : List ImportSpec)
    (h : im.Path.Value = "") :
    fromImportsLoop name (im :: rest) = fromImportsLoop name rest := by
  simp [fromImportsLoop, h]

theorem fromImportsLoop_cons_quoted (name : String) (im : ImportSpec) (rest : List ImportSpec)
    (h : 2 ≤ im.Path.Value.length) :
    fromImportsLoop name (im :: rest) =
      if aliasIs im name = true ∨ finalSegment im.unquoted = name then .ok im.unquoted
      else fromImportsLoop name rest := by
  have hv : im.Path.Value ≠ "" := by
    intro e
    rw [e] at h
    simp at h
  have hb : 1 ≤ im.Path.Value.length - 1 ∧ im.Path.Value.length - 1 ≤ im.Path.Value.length := by
    omega
  have hlast : lastElem (stringsSplit im.unquoted '/') = .ok (finalSegment im.unquoted) :=
    lastElem_map String.mk _ _ (lastElem_splitChars im.unquoted.data)
  have hslice : goSlice im.Path.Value 1 (im.Path.Value.length - 1) = .ok im.unquoted := by
    simp [goSlice, hb, ImportSpec.unquoted]
  simp only [fromImportsLoop, hv, if_false, hslice, hlast]
  by_cases ha : aliasIs im name = true
  · simp [ha]
  · by_cases hs : finalSegment im.unquoted = name
    · simp [ha, hs]
    · simp [ha, hs]

theorem fromImportsLoop_first_match (name : String) (pre : List ImportSpec) (im : ImportSpec)
    (post : List ImportSpec)
    (hpre : ∀ x ∈ pre, x.Path.Value = "" ∨
      (2 ≤ x.Path.Value.length ∧ aliasIs x name = false ∧ finalSegment x.unquoted ≠ name))
    (hq : 2 ≤ im.Path.Value.length)
    (hm : aliasIs im name = true ∨ finalSegment im.unquoted = name) :
    fromImportsLoop name (pre ++ im :: post) = .ok im.unquoted := by
  induction pre with
  | nil => simp [fromImportsLoop_cons_quoted name im post hq, hm]
  | cons x rest ih =>
    have hrest := ih (fun y hy => hpre y (List.mem_cons_of_mem _ hy))
    rcases hpre x (List.mem_cons_self _ _) with h0 | ⟨h2, ha, hs⟩
    · simpa [fromImportsLoop_cons_empty name x _ h0] using hrest
    · simp [fromImportsLoop_cons_quoted name x _ h2, ha, hs, hrest]

theorem fromImportsLoop_unmatched (name : String) (imports : List ImportSpec)
    (hq : quotedImports imports)
    (hno : ∀ im ∈ imports, aliasIs im name = false ∧ finalSegment im.unquoted ≠ name) :
    fromImportsLoop name imports = .ok "" := by
  induction imports with
  | nil => rfl
  | cons x rest ih =>
    have hrest := ih (fun y hy => hq y (List.mem_cons_of_mem _ hy))
      (fun y hy => hno y (List.mem_cons_of_mem _ hy))
    obtain ⟨ha, hs⟩ := hno x (List.mem_cons_self _ _)
    rcases hq x (List.mem_cons_self _ _) with h0 | h2
    · simpa [fromImportsLoop_cons_empty name x _ h0] using hrest
    · simp [fromImportsLoop_cons_quoted name x _ h2, ha, hs, hrest]

/-- C3, counterexample: in the table with the single path literal of one character no import
has the alias or the final path segment `v1alpha1`, and `fromImports` panics on it instead of
returning the empty path. -/
theorem fromImports_empty_path_counterexample :
    (∀ im ∈ loneQuoteConverter.imports,
      aliasIs im "v1alpha1" = false ∧ finalSegment im.unquoted ≠ "v1alpha1") ∧
    loneQuoteConverter.fromImports "v1alpha1" = .error (.panic .sliceBoundsOutOfRange) ∧
    loneQuoteConverter.fromImports "v1alpha1" ≠ .ok "" := by
  decide

/-- C3, as amended: with the import `v1a "example.org/mod/v1alpha1"` first in the table,
`fromImports("v1a")` returns `example.org/mod/v1alpha1`, the quotes stripped; with the
unaliased import of that path first, `fromImports("v1alpha1")` matches the final path segment
and returns the same path; and for every table of imports whose path literals are empty or at
least two characters long and in which no import has the name as its alias or as its final path
segment, `fromImports` returns the empty path. -/
theorem fromImports_three_cases :
    (∀ (c : converter) (rest : List ImportSpec),
      ({ c with imports := ⟨some ⟨"v1a"⟩, ⟨"\"example.org/mod/v1alpha1\""⟩⟩ :: rest }
        ).fromImports "v1a" = .ok "example.org/mod/v1alpha1") ∧
    (∀ (c : converter) (rest : List ImportSpec),
      ({ c with imports := ⟨none, ⟨"\"example.org/mod/v1alpha1\""⟩⟩ :: rest }
        ).fromImports "v1alpha1" = .ok "example.org/mod/v1alpha1") ∧
    (∀ (c : converter) (name : String), quotedImports c.imports →
      (∀ im ∈ c.imports, aliasIs im name = false ∧ finalSegment im.unquoted ≠ name) →
      c.fromImports name = .ok "") := by
  refine ⟨fun c rest => ?_, fun c rest => ?_, fun c name hq hno => ?_⟩
  · exact fromImportsLoop_first_match "v1a" [] _ rest (by simp) (by decide)
      (Or.inl (by decide))
  · exact fromImportsLoop_first_match "v1alpha1" [] _ rest (by simp) (by decide)
      (Or.inr (by decide))
  · exact fromImportsLoop_unmatched name c.imports hq hno

/-- C3, witness: under the unaliased import of `example.org/mod/v1alpha1`, the name `v1a` is
neither alias nor final segment, and resolves to the empty path. -/
theorem fromImports_three_cases_witness : unaliasedConverter.fromImports "v1a" = .ok "" :=
  fromImports_three_cases.2.2 unaliasedConverter "v1a" (by unfold quotedImports; decide)
    (by decide)

/-- C4, counterexample: in the table `"a/foo"`, `foo "b/bar"` an import has the alias `foo`,
but `fromImports("foo")` returns `a/foo`, the path of the earlier import that is matched by its
final segment only, which is the path of no import with that alias. -/
theorem fromImports_alias_priority_counterexample :
    (∃ im ∈ shadowedAliasConverter.imports, aliasIs im "foo" = true) ∧
    shadowedAliasConverter.fromImports "foo" = .ok "a/foo" ∧
    ¬ ∃ im ∈ shadowedAliasConverter.imports, aliasIs im "foo" = true ∧
        shadowedAliasConverter.fromImports "foo" = .ok im.unquoted := by
  decide

/-- C4, as amended: matching goes import by import in table order, alias before final segment
within one import.  `fromImports` returns the path of the first import with a non-empty path
literal that has the package name as its alias or as its final path segment; an import with
that alias is the one returned when no import placed earlier in the table is matched (by alias
or by final segment), whatever follows it. -/
theorem fromImports_first_match (c : converter) (name : String) (pre : List ImportSpec)
    (im : ImportSpec) (post : List ImportSpec)
    (himports : c.imports = pre ++ im :: post)
    (hpre : ∀ x ∈ pre, x.Path.Value = "" ∨
      (2 ≤ x.Path.Value.length ∧ aliasIs x name = false ∧ finalSegment x.unquoted ≠ name))
    (hq : 2 ≤ im.Path.Value.length)
    (hm : aliasIs im name = true ∨ finalSegment im.unquoted = name) :
    c.fromImports name = .ok im.unquoted := by
  rw [converter.fromImports, himports]
  exact fromImportsLoop_first_match name pre im post hpre hq hm

/-- C4, witness: in the table `"a/foo"`, `foo "b/bar"` the first import is matched by its final
segment and its path is returned. -/
theorem fromImports_first_match_witness :
    shadowedAliasConverter.fromImports "foo" = .ok "a/foo" :=
  fromImports_first_match shadowedAliasConverter "foo" [] ⟨none, ⟨"\"a/foo\""⟩⟩
    [⟨some ⟨"foo"⟩, ⟨"\"b/bar\""⟩⟩] rfl (by simp) (by decide) (Or.inr (by decide))

/-- C5: for every method field whose type node is not a function type, `covertFuncType`
returns the empty converter, whose `error()` is nil: the error it made is dropped.  The chain
of `visitorResourceGetterMethod` then dereferences the nil `funcType` in `extractArguments`,
so the chain and the visitor method panic instead of returning an error. -/
theorem covertFuncType_not_func_drops_error (method : Field) (imports : List ImportSpec)
    (fuel : Nat) (m : meshClientVisitor) (name : String) (spec : InterfaceFileSpec)
    (h : ∀ params results, method.Typ ≠ .funcType params results) :
    (∃ c, covertFuncType method imports = .ok c ∧ c.error = none ∧ c.funcType = none) ∧
    extractChain fuel method imports = .error (.panic .nilDereference) ∧
    m.visitorResourceGetterMethod fuel name method imports spec =
      .error (.panic .nilDereference) := by
  have hc : covertFuncType method imports =
      .ok { err := none, funcType := none, funcName := "", imports := [] } := by
    unfold covertFuncType
    split
    · rename_i p r heq
      exact absurd heq (h p r)
    · rfl
  have hchain : extractChain fuel method imports = .error (.panic .nilDereference) := by
    simp [extractChain, hc, converter.extractArguments]
  refine ⟨⟨_, hc, rfl, rfl⟩, hchain, ?_⟩
  simp [meshClientVisitor.visitorResourceGetterMethod, hchain]

/-- C5, witness: the method field `Get int`. -/
theorem covertFuncType_not_func_drops_error_witness :
    (∃ c, covertFuncType notAFuncMethod [] = .ok c ∧ c.error = none ∧ c.funcType = none) ∧
    extractChain 1 notAFuncMethod [] = .error (.panic .nilDereference) ∧
    serviceVisitor.visitorResourceGetterMethod 1 "Service" notAFuncMethod [] emptySpec =
      .error (.panic .nilDereference) :=
  covertFuncType_not_func_drops_error notAFuncMethod [] 1 serviceVisitor "Service" emptySpec
    (by intro p r; simp [notAFuncMethod, Field.Typ])

/-- C6: for every method field whose type node is a function type and whose name list is
empty, `covertFuncType` does not return: after assigning the error it evaluates
`method.Names[0]`, which panics with an index out of range, and so do the chain and the visitor
method built on it. -/
theorem covertFuncType_no_name_panics (params results : Option (List Field))
    (imports : List ImportSpec) (fuel : Nat) (m : meshClientVisitor) (name : String)
    (spec : InterfaceFileSpec) :
    covertFuncType (.mk [] (.funcType params results)) imports =
      .error (.panic .indexOutOfRange) ∧
    extractChain fuel (.mk [] (.funcType params results)) imports =
      .error (.panic .indexOutOfRange) ∧
    m.visitorResourceGetterMethod fuel name (.mk [] (.funcType params results)) imports spec =
      .error (.panic .indexOutOfRange) := by
  refine ⟨rfl, rfl, ?_⟩
  have hchain : extractChain fuel (.mk [] (.funcType params results)) imports =
      .error (.panic .indexOutOfRange) := rfl
  simp [meshClientVisitor.visitorResourceGetterMethod, hchain]

theorem terminal_supported : (typ : Expr) → typ.supported = true → typ.terminal.supported = true
  | .ident _, _ => rfl
  | .selectorExpr _ _, hs => hs
  | .starExpr X, hs => terminal_supported X (by simpa [Expr.supported] using hs)
  | .arrayType X, hs => terminal_supported X (by simpa [Expr.supported] using hs)
  | .funcType _ _, hs => by simp [Expr.supported] at hs
  | .other _, hs => by simp [Expr.supported] at hs

theorem terminal_depth : (typ : Expr) → typ.terminal.depth = 0
  | .ident _ => rfl
  | .selectorExpr _ _ => rfl
  | .starExpr X => terminal_depth X
  | .arrayType X => terminal_depth X
  | .funcType _ _ => rfl
  | .other _ => rfl

theorem settled_fields_ok (fuel : Nat) (fields : List Field)
    (h : ∀ r ∈ fields, r.Typ.supported = true ∧ r.Typ.depth < fuel) :
    ∀ r ∈ fields.map Field.settled, r.Typ.supported = true ∧ r.Typ.depth < fuel := by
  intro r hr
  obtain ⟨r0, hr0, rfl⟩ := List.mem_map.mp hr
  obtain ⟨hs, hd⟩ := h r0 hr0
  refine ⟨terminal_supported _ hs, ?_⟩
  simp only [Field.settled, Field.Typ, terminal_depth]
  omega

theorem funcIdens_returns (c : converter) (fuel : Nat) (withID : Bool) (fields : List Field)
    (h : ∀ r ∈ fields, r.Typ.supported = true ∧ r.Typ.depth < fuel)
    (hq : quotedImports c.imports) :
    ∃ codes, c.funcIdens fuel fields withID = .ok (fields.map Field.settled, codes) ∧
      codes.length = fields.length := by
  obtain ⟨codes, hrun, hlen, -⟩ := funcIdensFrom_ok c fuel withID fields 0
    (fun r hr => (h r hr).2) (fun r hr => terminalToken_ok c hq r.Typ (h r hr).1)
  exact ⟨codes, hrun, hlen⟩

theorem runCall_extractable (fuel : Nat) (call : ExtractCall) (c : converter) (out : Outputs)
    (herr : c.err = none) (hx : c.extractable fuel) :
    ∃ c' out', runCall fuel call (c, out) = .ok (c', out') ∧ c'.err = none ∧
      c'.extractable fuel := by
  obtain ⟨ft, ps, rs, hft, hps, hrs, hp, hr, hq⟩ := hx
  cases call with
  | arguments slot =>
    obtain ⟨codes, hrun, -⟩ := funcIdens_returns c fuel true ps hp hq
    refine ⟨{ c with funcType := some { ft with Params := some (ps.map Field.settled) } },
      { out with slices := Function.update out.slices slot (out.slices slot ++ codes) },
      ?_, herr, ?_⟩
    · simp [runCall, converter.extractArguments, herr, hft, hps, hrun]
    · exact ⟨_, _, rs, rfl, rfl, hrs, settled_fields_ok fuel ps hp, hr, hq⟩
  | results slot =>
    obtain ⟨codes, hrun, -⟩ := funcIdens_returns c fuel false rs hr hq
    refine ⟨{ c with funcType := some { ft with Results := some (rs.map Field.settled) } },
      { out with slices := Function.update out.slices slot (out.slices slot ++ codes) },
      ?_, herr, ?_⟩
    · simp [runCall, converter.extractResults, herr, hft, hrs, hrun]
    · exact ⟨_, ps, _, rfl, hps, rfl, hp, settled_fields_ok fuel rs hr, hq⟩
  | funcName slot =>
    have hname : c.extractFuncName (out.names slot) = (c, c.funcName) := by
      simp [converter.extractFuncName, herr]
    exact ⟨c, { out with names := Function.update out.names slot c.funcName },
      by simp [runCall, hname], herr, ft, ps, rs, hft, hps, hrs, hp, hr, hq⟩

theorem runCall_err_noop (fuel : Nat) (call : ExtractCall) (c : converter) (out : Outputs)
    (e : Error) (herr : c.err = some e) : runCall fuel call (c, out) = .ok (c, out) := by
  cases call <;>
    simp [runCall, converter.extractArguments, converter.extractResults,
      converter.extractFuncName, herr]

theorem extractArguments_keeps_nil (fuel : Nat) (c c' : converter) (codes codes' : List Code)
    (herr : c.err = none) (hrun : c.extractArguments fuel codes = .ok (c', codes')) :
    c'.err = none := by
  unfold converter.extractArguments at hrun
  rw [herr] at hrun
  cases hft : c.funcType with
  | none => simp [hft] at hrun
  | some ft =>
    cases hps : ft.Params with
    | none => simp [hft, hps] at hrun
    | some ps =>
      cases hfi : c.funcIdens fuel ps true with
      | error f => simp [hft, hps, hfi] at hrun
      | ok r =>
        simp only [hft, hps, hfi, Except.ok.injEq, Prod.mk.injEq] at hrun
        rw [← hrun.1]

theorem extractResults_keeps_nil (fuel : Nat) (c c' : converter) (codes codes' : List Code)
    (herr : c.err = none) (hrun : c.extractResults fuel codes = .ok (c', codes')) :
    c'.err = none := by
  unfold converter.extractResults at hrun
  rw [herr] at hrun
  cases hft : c.funcType with
  | none => simp [hft] at hrun
  | some ft =>
    cases hrs : ft.Results with
    | none => simp [hft, hrs] at hrun
    | some rs =>
      cases hfi : c.funcIdens fuel rs false with
      | error f => simp [hft, hrs, hfi] at hrun
      | ok r =>
        simp only [hft, hrs, hfi, Except.ok.injEq, Prod.mk.injEq] at hrun
        rw [← hrun.1]

theorem runCall_keeps_nil (fuel : Nat) (call : ExtractCall) (c c' : converter)
    (out out' : Outputs) (herr : c.err = none)
    (hrun : runCall fuel call (c, out) = .ok (c', out')) : c'.err = none := by
  cases call with
  | arguments slot =>
    simp only [runCall] at hrun
    cases hx : c.extractArguments fuel (out.slices slot) with
    | error f => simp [hx] at hrun
    | ok r =>
      obtain ⟨c1, codes⟩ := r
      simp only [hx, Except.ok.injEq, Prod.mk.injEq] at hrun
      rw [← hrun.1]
      exact extractArguments_keeps_nil fuel c c1 _ codes herr hx
  | results slot =>
    simp only [runCall] at hrun
    cases hx : c.extractResults fuel (out.slices slot) with
    | error f => simp [hx] at hrun
    | ok r =>
      obtain ⟨c1, codes⟩ := r
      simp only [hx, Except.ok.injEq, Prod.mk.injEq] at hrun
      rw [← hrun.1]
      exact extractResults_keeps_nil fuel c c1 _ codes herr hx
  | funcName slot =>
    simp only [runCall, converter.extractFuncName, herr, Except.ok.injEq, Prod.mk.injEq] at hrun
    rw [← hrun.1]
    exact herr

/-- C7: first error wins.  For a converter whose `err` is an error `e`, every chain of
`extractArguments`, `extractResults` and `extractFuncName` calls returns, leaves the converter
and every variable of the caller as they were, and `error()` after it is exactly `e`.  For a
converter without error, `error()` is nil after every chain that returns, and every chain does
return when the signature can be extracted. -/
theorem extract_chain_first_error_wins (fuel : Nat) (calls : List ExtractCall) (c : converter)
    (out : Outputs) :
    (∀ e, c.err = some e →
      runChain fuel calls (c, out) = .ok (c, out) ∧ c.error = some e) ∧
    (c.err = none → ∀ c' out', runChain fuel calls (c, out) = .ok (c', out') →
      c'.error = none) ∧
    (c.err = none → c.extractable fuel →
      ∃ c' out', runChain fuel calls (c, out) = .ok (c', out') ∧ c'.error = none) := by
  refine ⟨?_, ?_, ?_⟩
  · intro e herr
    refine ⟨?_, herr⟩
    induction calls with
    | nil => rfl
    | cons call rest ih => simp [runChain, runCall_err_noop fuel call c out e herr, ih]
  · intro herr
    induction calls generalizing c out with
    | nil =>
      intro c' out' hrun
      simp only [runChain, Except.ok.injEq, Prod.mk.injEq] at hrun
      rw [← hrun.1]
      exact herr
    | cons call rest ih =>
      intro c' out' hrun
      simp only [runChain] at hrun
      split at hrun
      · cases hrun
      · rename_i st heq
        obtain ⟨c1, out1⟩ := st
        exact ih c1 out1 (runCall_keeps_nil fuel call c c1 out out1 herr heq) c' out' hrun
  · intro herr hx
    induction calls generalizing c out with
    | nil => exact ⟨c, out, rfl, herr⟩
    | cons call rest ih =>
      obtain ⟨c1, out1, hcall, herr1, hx1⟩ := runCall_extractable fuel call c out herr hx
      obtain ⟨c', out', hrun, hnil⟩ := ih c1 out1 herr1 hx1
      exact ⟨c', out', by simp [runChain, hcall, hrun], hnil⟩

/-- C7, witness: the chain `extractArguments(&x0).extractResults(&x1).extractFuncName(&n0)` is
a no-op on a converter that carries an error, and returns with a nil `error()` on the
converter of `Get(int, string, bool)`. -/
theorem extract_chain_first_error_wins_witness :
    (runChain 1 [.arguments 0, .results 1, .funcName 0] (erroredConverter, blankOutputs) =
        .ok (erroredConverter, blankOutputs) ∧
      erroredConverter.error = some (Error.errorf "func name is reqired")) ∧
    (∃ c' out', runChain 1 [.arguments 0, .results 1, .funcName 0]
        (unnamedThree, blankOutputs) = .ok (c', out') ∧ c'.error = none) :=
  ⟨(extract_chain_first_error_wins 1 [.arguments 0, .results 1, .funcName 0] erroredConverter
      blankOutputs).1 (Error.errorf "func name is reqired") rfl,
   (extract_chain_first_error_wins 1 [.arguments 0, .results 1, .funcName 0] unnamedThree
      blankOutputs).2.2 rfl
      ⟨_, _, _, rfl, rfl, rfl, by decide, by decide, by unfold quotedImports; decide⟩⟩

theorem visitorIntrefaceMethod_eq (m : meshClientVisitor) (concreateStruct : String)
    (verb : Verb) (method : Field) (imports : List ImportSpec) (spec : InterfaceFileSpec) :
    m.visitorIntrefaceMethod concreateStruct verb method imports spec =
      match dispatch m.builder verb with
      | none =>
        .ok ({ interfaceStructName := concreateStruct, method := method, imports := imports,
               buf := spec.Buf, resourceType := m.resourceType,
               subResource := spec.SubResource,
               resource2UrlMapping := spec.ResourceMapping }, none)
      | some build =>
        match build { interfaceStructName := concreateStruct, method := method,
                      imports := imports, buf := spec.Buf, resourceType := m.resourceType,
                      subResource := spec.SubResource,
                      resource2UrlMapping := spec.ResourceMapping } with
        | .error f => .error f
        | .ok (info', berr) =>
          .ok (info', berr.map (fun e => Error.wrapf e (verbContext verb))) := by
  unfold meshClientVisitor.visitorIntrefaceMethod dispatch verbContext
  by_cases h1 : verb = Verb.Get
  · simp only [h1, if_true]
    split <;> simp_all
  · by_cases h2 : verb = Verb.Patch
    · simp only [h1, h2, if_true, if_false]
      split <;> simp_all
    · by_cases h3 : verb = Verb.Delete
      · simp only [h1, h2, h3, if_true, if_false]
        split <;> simp_all
      · by_cases h4 : verb = Verb.List
        · simp only [h1, h2, h3, h4, if_true, if_false]
          split <;> simp_all
        · by_cases h5 : verb = Verb.Create
          · simp only [h1, h2, h3, h4, h5, if_true, if_false]
            split <;> simp_all
          · simp only [h1, h2, h3, h4, h5, if_false]

theorem visitorIntrefaceMethod_dispatched (m : meshClientVisitor) (concreateStruct : String)
    (verb : Verb) (method : Field) (imports : List ImportSpec) (spec : InterfaceFileSpec)
    (build : buildInfo → Except Fault (buildInfo × Option Error))
    (hd : dispatch m.builder verb = some build) :
    m.visitorIntrefaceMethod concreateStruct verb method imports spec =
      wrapResult verb (build (buildInfoOf m concreateStruct method imports spec)) := by
  rw [visitorIntrefaceMethod_eq, hd]
  simp only [buildInfoOf, wrapResult]

/-- C8: for each of the five verbs `visitorIntrefaceMethod` is one call of the matching builder
method (`Get` to `buildGetMethod`, `Patch` to `buildPatchMethod`, `Delete` to
`buildDeleteMethod`, `List` to `buildListMethod`, `Create` to `buildCreateMethod`) on the build
info whose fields are the record name argument, the method argument, the imports argument, the
file spec's buffer, the visitor's resource type, the file spec's sub-resource flag and the file
spec's resource mapping; with a builder that records its calls the buffer gains exactly one
record, that of the matching method. -/
theorem visitorIntrefaceMethod_dispatch (m : meshClientVisitor) (concreateStruct : String)
    (method : Field) (imports : List ImportSpec) (spec : InterfaceFileSpec) :
    ((buildInfoOf m concreateStruct method imports spec).interfaceStructName = concreateStruct ∧
     (buildInfoOf m concreateStruct method imports spec).method = method ∧
     (buildInfoOf m concreateStruct method imports spec).imports = imports ∧
     (buildInfoOf m concreateStruct method imports spec).buf = spec.Buf ∧
     (buildInfoOf m concreateStruct method imports spec).resourceType = m.resourceType ∧
     (buildInfoOf m concreateStruct method imports spec).subResource = spec.SubResource ∧
     (buildInfoOf m concreateStruct method imports spec).resource2UrlMapping =
       spec.ResourceMapping) ∧
    (m.visitorIntrefaceMethod concreateStruct Verb.Get method imports spec =
       wrapResult Verb.Get
         (m.builder.buildGetMethod (buildInfoOf m concreateStruct method imports spec)) ∧
     m.visitorIntrefaceMethod concreateStruct Verb.Patch method imports spec =
       wrapResult Verb.Patch
         (m.builder.buildPatchMethod (buildInfoOf m concreateStruct method imports spec)) ∧
     m.visitorIntrefaceMethod concreateStruct Verb.Delete method imports spec =
       wrapResult Verb.Delete
         (m.builder.buildDeleteMethod (buildInfoOf m concreateStruct method imports spec)) ∧
     m.visitorIntrefaceMethod concreateStruct Verb.List method imports spec =
       wrapResult Verb.List
         (m.builder.buildListMethod (buildInfoOf m concreateStruct method imports spec)) ∧
     m.visitorIntrefaceMethod concreateStruct Verb.Create method imports spec =
       wrapResult Verb.Create
         (m.builder.buildCreateMethod (buildInfoOf m concreateStruct method imports spec))) ∧
    (∀ verb who, (verb, who) ∈ [(Verb.Get, "buildGetMethod"), (Verb.Patch, "buildPatchMethod"),
        (Verb.Delete, "buildDeleteMethod"), (Verb.List, "buildListMethod"),
        (Verb.Create, "buildCreateMethod")] →
      ({ m with builder := tracingBuilder }).visitorIntrefaceMethod concreateStruct verb method
          imports spec =
        .ok ({ buildInfoOf m concreateStruct method imports spec with
                buf := spec.Buf ++ [Decl.packageComment (who ++ " " ++ concreateStruct)] },
             none)) := by
  refine ⟨⟨rfl, rfl, rfl, rfl, rfl, rfl, rfl⟩, ⟨?_, ?_, ?_, ?_, ?_⟩, ?_⟩
  · exact visitorIntrefaceMethod_dispatched m _ _ _ _ _ _ rfl
  · exact visitorIntrefaceMethod_dispatched m _ _ _ _ _ _ rfl
  · exact visitorIntrefaceMethod_dispatched m _ _ _ _ _ _ rfl
  · exact visitorIntrefaceMethod_dispatched m _ _ _ _ _ _ rfl
  · exact visitorIntrefaceMethod_dispatched m _ _ _ _ _ _ rfl
  · intro verb who hmem
    simp only [List.mem_cons, Prod.mk.injEq, List.mem_singleton, List.not_mem_nil,
      or_false] at hmem
    rcases hmem with ⟨rfl, rfl⟩ | ⟨rfl, rfl⟩ | ⟨rfl, rfl⟩ | ⟨rfl, rfl⟩ | ⟨rfl, rfl⟩ <;> rfl

/-- C8, witness: with the recording builder, the verb `Patch` on the record `serviceInterface`
adds the one record of `buildPatchMethod` to an empty buffer. -/
theorem visitorIntrefaceMethod_dispatch_witness :
    ({ serviceVisitor with builder := tracingBuilder }).visitorIntrefaceMethod
        "serviceInterface" Verb.Patch getMethod [] emptySpec =
      .ok ({ buildInfoOf serviceVisitor "serviceInterface" getMethod [] emptySpec with
              buf := [Decl.packageComment "buildPatchMethod serviceInterface"] }, none) :=
  (visitorIntrefaceMethod_dispatch serviceVisitor "serviceInterface" getMethod [] emptySpec
    ).2.2 Verb.Patch "buildPatchMethod" (by decide)

/-- C9: for every verb other than `Get`, `Patch`, `Delete`, `List` and `Create`,
`visitorIntrefaceMethod` returns nil whatever the builder is (also one whose methods never
return), and leaves the build info, the emission buffer in it, as it was: no builder is
invoked. -/
theorem visitorIntrefaceMethod_unrecognized_verb (m : meshClientVisitor)
    (concreateStruct : String) (verb : Verb) (method : Field) (imports : List ImportSpec)
    (spec : InterfaceFileSpec)
    (hGet : verb ≠ Verb.Get) (hPatch : verb ≠ Verb.Patch) (hDelete : verb ≠ Verb.Delete)
    (hList : verb ≠ Verb.List) (hCreate : verb ≠ Verb.Create) :
    dispatch m.builder verb = none ∧
    m.visitorIntrefaceMethod concreateStruct verb method imports spec =
      .ok (buildInfoOf m concreateStruct method imports spec, none) ∧
    (buildInfoOf m concreateStruct method imports spec).buf = spec.Buf := by
  have hd : dispatch m.builder verb = none := by
    simp [dispatch, hGet, hPatch, hDelete, hList, hCreate]
  refine ⟨hd, ?_, rfl⟩
  rw [visitorIntrefaceMethod_eq, hd]
  rfl

/-- C9, witness: the verb `Update` with a builder whose methods all panic. -/
theorem visitorIntrefaceMethod_unrecognized_verb_witness :
    dispatch faultyBuilder ⟨"Update"⟩ = none ∧
    ({ serviceVisitor with builder := faultyBuilder }).visitorIntrefaceMethod
        "serviceInterface" ⟨"Update"⟩ getMethod [] emptySpec =
      .ok (buildInfoOf serviceVisitor "serviceInterface" getMethod [] emptySpec, none) ∧
    (buildInfoOf serviceVisitor "serviceInterface" getMethod [] emptySpec).buf = [] :=
  visitorIntrefaceMethod_unrecognized_verb { serviceVisitor with builder := faultyBuilder }
    "serviceInterface" ⟨"Update"⟩ getMethod [] emptySpec (by decide) (by decide) (by decide)
    (by decide) (by decide)

/-- C10: `visitorIntrefaceMethod` returns what the builder it dispatched to returned, with a
non-nil error wrapped in the verb's context and a nil error left nil, and returns nil when it
dispatched to none.  So it returns a non-nil error exactly when the dispatched builder did, and
the error's message then is `build <verb> interface method error: <builder error message>`. -/
theorem visitorIntrefaceMethod_error_iff (m : meshClientVisitor) (concreateStruct : String)
    (verb : Verb) (method : Field) (imports : List ImportSpec) (spec : InterfaceFileSpec) :
    (m.visitorIntrefaceMethod concreateStruct verb method imports spec =
      match dispatch m.builder verb with
      | none => .ok (buildInfoOf m concreateStruct method imports spec, none)
      | some build =>
        wrapResult verb (build (buildInfoOf m concreateStruct method imports spec))) ∧
    (∀ info' verr,
      m.visitorIntrefaceMethod concreateStruct verb method imports spec = .ok (info', verr) →
      (verr ≠ none ↔ ∃ build berr, dispatch m.builder verb = some build ∧
        build (buildInfoOf m concreateStruct method imports spec) = .ok (info', some berr))) ∧
    (∀ build info' berr, dispatch m.builder verb = some build →
      build (buildInfoOf m concreateStruct method imports spec) = .ok (info', some berr) →
      m.visitorIntrefaceMethod concreateStruct verb method imports spec =
        .ok (info', some (Error.wrapf berr (verbContext verb))) ∧
      (Error.wrapf berr (verbContext verb)).message =
        "build " ++ verb.name ++ " interface method error: " ++ berr.message) := by
  have heq : m.visitorIntrefaceMethod concreateStruct verb method imports spec =
      match dispatch m.builder verb with
      | none => .ok (buildInfoOf m concreateStruct method imports spec, none)
      | some build =>
        wrapResult verb (build (buildInfoOf m concreateStruct method imports spec)) := by
    cases hd : dispatch m.builder verb with
    | none =>
      rw [visitorIntrefaceMethod_eq, hd]
      rfl
    | some build => exact visitorIntrefaceMethod_dispatched m _ _ _ _ _ build hd
  refine ⟨heq, ?_, ?_⟩
  · intro info' verr hrun
    rw [heq] at hrun
    cases hd : dispatch m.builder verb with
    | none =>
      simp only [hd, Except.ok.injEq, Prod.mk.injEq] at hrun
      simp [← hrun.2]
    | some build =>
      simp only [hd] at hrun
      cases hb : build (buildInfoOf m concreateStruct method imports spec) with
      | error f => simp [hb, wrapResult] at hrun
      | ok r =>
        obtain ⟨i, berr⟩ := r
        simp only [hb, wrapResult, Except.ok.injEq, Prod.mk.injEq] at hrun
        obtain ⟨hi, he⟩ := hrun
        subst hi
        cases berr with
        | none => simp [← he, hb]
        | some e => simp [← he, hb]
  · intro build info' berr hd hb
    refine ⟨?_, ?_⟩
    · rw [heq, hd]
      simp [hb, wrapResult]
    · simp [Error.message, verbContext, String.append_assoc]

/-- C10, witness: the verb `Get` with a builder that returns the error `no url template`
returns the error with message `build Get interface method error: no url template`. -/
theorem visitorIntrefaceMethod_error_iff_witness :
    ({ serviceVisitor with builder := failingBuilder }).visitorIntrefaceMethod
        "serviceInterface" Verb.Get getMethod [] emptySpec =
      .ok (buildInfoOf serviceVisitor "serviceInterface" getMethod [] emptySpec,
        some (Error.wrapf (Error.errorf "no url template") (verbContext Verb.Get))) ∧
    (Error.wrapf (Error.errorf "no url template") (verbContext Verb.Get)).message =
      "build Get interface method error: no url template" :=
  (visitorIntrefaceMethod_error_iff { serviceVisitor with builder := failingBuilder }
    "serviceInterface" Verb.Get getMethod [] emptySpec).2.2 failingBuilder.buildGetMethod
    (buildInfoOf serviceVisitor "serviceInterface" getMethod [] emptySpec)
    (Error.errorf "no url template") rfl rfl

/-- C11: for the getter record `ServiceGetter` and the factory method `Service(name string)
ServiceInterface`, the visitor emits the record type and then the method
`func (S *ServiceGetter) Service(name string) ServiceInterface` whose body returns
`&serviceInterface{client: s.client}`: the receiver is named `S`, from `getterID[0]`, and the
body reads the `client` field of `s`, from `strings.ToLower(name[0:1])`, which is not the
receiver. -/
theorem getterMethod_reads_other_identifier :
    serviceGetterEmitted.1.getterID = "ServiceGetter" ∧
    (serviceGetterEmitted.1.visitorResourceGetterMethod 1 "Service" serviceGetterMethod []
        serviceGetterEmitted.2.1).map (fun r => (r.1.Buf, r.2)) =
      .ok ([.typeStruct "ServiceGetter" [[.id "client", .qual "" "*meshClient"]],
        serviceFactoryDecl], none) ∧
    serviceFactoryDecl.receiverName = some "S" ∧
    serviceFactoryDecl.clientSource = some "s" ∧
    serviceFactoryDecl.receiverName ≠ serviceFactoryDecl.clientSource := by
  decide

/-- C12, counterexample: after `onError(first)` and then `onError(second)` on a fresh visitor
the recorded error is `second`, not `first`. -/
theorem onError_first_error_counterexample :
    (((NewVisitor ⟨0⟩ idleBuilder).onError (some (Error.errorf "first"))).onError
        (some (Error.errorf "second"))).err = some (Error.errorf "second") ∧
    (((NewVisitor ⟨0⟩ idleBuilder).onError (some (Error.errorf "first"))).onError
        (some (Error.errorf "second"))).err ≠ some (Error.errorf "first") := by
  decide

/-- C12, as amended: `onError` records the error it is given, whatever was recorded before:
for every two errors `e1` and `e2`, after `onError(e1)` followed by `onError(e2)` on a fresh
visitor the visitor's recorded error is `e2`, and nothing else of the visitor changes. -/
theorem onError_records_last_error (resourceType : ResourceType)
    (builder : interfaceMethodBuilder) (e1 e2 : Error) :
    (((NewVisitor resourceType builder).onError (some e1)).onError (some e2)).err = some e2 ∧
    ((NewVisitor resourceType builder).onError (some e1)).onError (some e2) =
      { NewVisitor resourceType builder with err := some e2 } :=
  ⟨rfl, rfl⟩

theorem funcIdensLoop_short (c : converter) (fuel : Nat) (typ : Expr) (st : Option Statement)
    (h : fuel ≤ typ.depth) : funcIdensLoop c fuel typ st = .error .outOfFuel := by
  induction fuel generalizing typ st with
  | zero => rfl
  | succ n ih =>
    cases typ with
    | ident i => simp [Expr.depth] at h
    | selectorExpr x s => simp [Expr.depth] at h
    | starExpr x =>
      have hd : n ≤ x.depth := by simp [Expr.depth] at h; omega
      cases st <;> simp [funcIdensLoop, ih x _ hd]
    | arrayType x =>
      have hd : n ≤ x.depth := by simp [Expr.depth] at h; omega
      cases st <;> simp [funcIdensLoop, ih x _ hd]
    | funcType p r => simp [Expr.depth] at h
    | other k => simp [Expr.depth] at h

theorem funcIdensLoop_inv (c : converter) (fuel : Nat) (typ : Expr) (st : Option Statement)
    (res : Expr × Option Statement) (h : funcIdensLoop c fuel typ st = .ok res) :
    typ.depth < fuel ∧ ∃ tok, terminalToken c typ.terminal = .ok tok ∧
      res = (typ.terminal, some (itemsOf st ++ typ.markers ++ [tok])) := by
  have hd : typ.depth < fuel := by
    by_contra hn
    rw [funcIdensLoop_short c fuel typ st (by omega)] at h
    cases h
  refine ⟨hd, ?_⟩
  rw [funcIdensLoop_eq c fuel typ st hd] at h
  cases htok : terminalToken c typ.terminal with
  | error f => simp [htok] at h
  | ok tok =>
    simp only [htok, Except.ok.injEq] at h
    exact ⟨tok, rfl, h.symm⟩

theorem funcIdensFrom_inv (c : converter) (fuel : Nat) (withID : Bool) (fields : List Field)
    (i : Nat) (res : List Field × List Code)
    (h : funcIdensFrom c fuel withID i fields = .ok res) :
    (∀ r ∈ fields, r.Typ.depth < fuel) ∧
    (∀ r ∈ fields, ∃ tok, terminalToken c r.Typ.terminal = .ok tok) := by
  induction fields generalizing i res with
  | nil => simp
  | cons r rest ih =>
    simp only [funcIdensFrom] at h
    cases hloop : funcIdensLoop c fuel r.Typ (funcIdensStart r withID i) with
    | error f => simp [hloop] at h
    | ok lr =>
      obtain ⟨hd, tok, htok, -⟩ := funcIdensLoop_inv c fuel _ _ lr hloop
      cases hrest : funcIdensFrom c fuel withID (i + 1) rest with
      | error f => simp [hloop, hrest] at h
      | ok rr =>
        obtain ⟨h1, h2⟩ := ih (i + 1) rr hrest
        constructor
        · intro x hx
          rcases List.mem_cons.mp hx with rfl | hx
          · exact hd
          · exact h1 x hx
        · intro x hx
          rcases List.mem_cons.mp hx with rfl | hx
          · exact ⟨tok, htok⟩
          · exact h2 x hx

/-- What `funcIdens` returns when it returns: the settled fields, and one code per field, the
code of field `k` being the statement the field starts with, the markers of its type and its
terminal token. -/
theorem funcIdens_result (c : converter) (fuel : Nat) (withID : Bool) (fields fields' : List Field)
    (codes : List Code) (h : c.funcIdens fuel fields withID = .ok (fields', codes)) :
    fields' = fields.map Field.settled ∧ codes.length = fields.length ∧
    (∀ r ∈ fields, r.Typ.depth < fuel) ∧
    ∀ k r, fields[k]? = some r → ∃ tok, terminalToken c r.Typ.terminal = .ok tok ∧
      codes[k]? = some (some (itemsOf (funcIdensStart r withID k) ++ r.Typ.markers
        ++ [tok])) := by
  obtain ⟨hd, ht⟩ := funcIdensFrom_inv c fuel withID fields 0 _ h
  obtain ⟨codes2, hrun, hlen, hidx⟩ := funcIdensFrom_ok c fuel withID fields 0 hd ht
  rw [converter.funcIdens, hrun] at h
  simp only [Except.ok.injEq, Prod.mk.injEq] at h
  obtain ⟨h1, h2⟩ := h
  subst h2
  refine ⟨h1.symm, hlen, hd, ?_⟩
  intro k r hk
  simpa using hidx k r hk

theorem settled_names (fields : List Field) :
    (fields.map Field.settled).map Field.Names = fields.map Field.Names := by
  induction fields with
  | nil => rfl
  | cons r rest ih => simp [Field.settled, Field.Names]

theorem terminal_of_depth_zero : (typ : Expr) → typ.depth = 0 → typ.terminal = typ
  | .ident _, _ => rfl
  | .selectorExpr _ _, _ => rfl
  | .starExpr _, h => by simp [Expr.depth] at h
  | .arrayType _, h => by simp [Expr.depth] at h
  | .funcType _ _, _ => rfl
  | .other _, _ => rfl

theorem settled_of_depth_zero (r : Field) (h : r.Typ.depth = 0) : r.settled = r := by
  cases r with
  | mk names typ =>
    simp only [Field.Typ] at h
    simp [Field.settled, Field.Names, Field.Typ, terminal_of_depth_zero typ h]

theorem extractArguments_inv (fuel : Nat) (c c' : converter) (codes codes' : List Code)
    (herr : c.err = none) (hrun : c.extractArguments fuel codes = .ok (c', codes')) :
    ∃ ft ps ds, c.funcType = some ft ∧ ft.Params = some ps ∧
      c.funcIdens fuel ps true = .ok (ps.map Field.settled, ds) ∧
      c' = { c with funcType := some { ft with Params := some (ps.map Field.settled) } } ∧
      codes' = codes ++ ds := by
  unfold converter.extractArguments at hrun
  rw [herr] at hrun
  cases hft : c.funcType with
  | none => simp [hft] at hrun
  | some ft =>
    cases hps : ft.Params with
    | none => simp [hft, hps] at hrun
    | some ps =>
      cases hfi : c.funcIdens fuel ps true with
      | error f => simp [hft, hps, hfi] at hrun
      | ok r =>
        obtain ⟨ps', ds⟩ := r
        have hset := (funcIdens_result c fuel true ps ps' ds hfi).1
        subst hset
        simp only [hft, hps, hfi, Except.ok.injEq, Prod.mk.injEq] at hrun
        refine ⟨ft, ps, ds, rfl, hps, hfi, ?_, hrun.2.symm⟩
        rw [← hrun.1]
        cases c
        simp_all

theorem extractResults_inv (fuel : Nat) (c c' : converter) (codes codes' : List Code)
    (herr : c.err = none) (hrun : c.extractResults fuel codes = .ok (c', codes')) :
    ∃ ft rs ds, c.funcType = some ft ∧ ft.Results = some rs ∧
      c.funcIdens fuel rs false = .ok (rs.map Field.settled, ds) ∧
      c' = { c with funcType := some { ft with Results := some (rs.map Field.settled) } } ∧
      codes' = codes ++ ds := by
  unfold converter.extractResults at hrun
  rw [herr] at hrun
  cases hft : c.funcType with
  | none => simp [hft] at hrun
  | some ft =>
    cases hrs : ft.Results with
    | none => simp [hft, hrs] at hrun
    | some rs =>
      cases hfi : c.funcIdens fuel rs false with
      | error f => simp [hft, hrs, hfi] at hrun
      | ok r =>
        obtain ⟨rs', ds⟩ := r
        have hset := (funcIdens_result c fuel false rs rs' ds hfi).1
        subst hset
        simp only [hft, hrs, hfi, Except.ok.injEq, Prod.mk.injEq] at hrun
        refine ⟨ft, rs, ds, rfl, hrs, hfi, ?_, hrun.2.symm⟩
        rw [← hrun.1]
        cases c
        simp_all

/-- C13, counterexample: `funcIdens` on the parameter `svc *Service` returns with the field's
type node changed from `*Service` to `Service`. -/
theorem funcIdens_immutable_counterexample :
    unnamedThree.funcIdens 2 [pointerField] false =
      .ok ([.mk [⟨"svc"⟩] (.ident ⟨"Service"⟩)],
        [some [.id "svc", .op "*", .id "Service"]]) ∧
    (Field.mk [⟨"svc"⟩] (.ident ⟨"Service"⟩)).Typ ≠ pointerField.Typ ∧
    ¬ ∀ fields' codes, unnamedThree.funcIdens 2 [pointerField] false = .ok (fields', codes) →
        fields'.map Field.Typ = [pointerField].map Field.Typ := by
  have hrun : unnamedThree.funcIdens 2 [pointerField] false =
      .ok ([.mk [⟨"svc"⟩] (.ident ⟨"Service"⟩)],
        [some [.id "svc", .op "*", .id "Service"]]) := rfl
  refine ⟨hrun, by simp [pointerField, Field.Typ], ?_⟩
  intro h
  have := h _ _ hrun
  simp [pointerField, Field.Typ] at this

/-- C13, as amended: when `funcIdens` has run, the number and order of the fields and every
field's name list are the same as before, and every field's type node has been replaced by the
node below its pointer and sequence levels, so that a field whose type is not a pointer or a
sequence is the same as before; `extractArguments` and `extractResults` on a converter without
error leave the parameter list, respectively the result list, of the signature in that state.
For field lists of supported types and quoted import literals `funcIdens` does run to its
end. -/
theorem funcIdens_settles_fields (c : converter) (fuel : Nat) (fields : List Field)
    (withID : Bool) :
    (∀ fields' codes, c.funcIdens fuel fields withID = .ok (fields', codes) →
      fields' = fields.map Field.settled ∧
      fields'.length = fields.length ∧
      fields'.map Field.Names = fields.map Field.Names ∧
      fields'.map Field.Typ = fields.map (fun r => r.Typ.terminal) ∧
      ∀ (k : Nat) (r : Field), fields[k]? = some r → r.Typ.depth = 0 → fields'[k]? = some r) ∧
    (∀ codes c' codes', c.err = none → c.extractArguments fuel codes = .ok (c', codes') →
      ∃ ft ps, c.funcType = some ft ∧ ft.Params = some ps ∧
        c'.funcType = some { ft with Params := some (ps.map Field.settled) }) ∧
    (∀ codes c' codes', c.err = none → c.extractResults fuel codes = .ok (c', codes') →
      ∃ ft rs, c.funcType = some ft ∧ ft.Results = some rs ∧
        c'.funcType = some { ft with Results := some (rs.map Field.settled) }) ∧
    ((∀ r ∈ fields, r.Typ.supported = true ∧ r.Typ.depth < fuel) → quotedImports c.imports →
      ∃ codes, c.funcIdens fuel fields withID = .ok (fields.map Field.settled, codes)) := by
  refine ⟨?_, ?_, ?_, ?_⟩
  · intro fields' codes h
    obtain ⟨hset, -, -, -⟩ := funcIdens_result c fuel withID fields fields' codes h
    subst hset
    refine ⟨rfl, by simp, settled_names fields, ?_, ?_⟩
    · simp [Field.settled, Field.Typ, Function.comp_def]
    · intro k r hk hd
      simp [List.getElem?_map, hk, settled_of_depth_zero r hd]
  · intro codes c' codes' herr h
    obtain ⟨ft, ps, ds, hft, hps, -, hc, -⟩ := extractArguments_inv fuel c c' codes codes' herr h
    exact ⟨ft, ps, hft, hps, by rw [hc]⟩
  · intro codes c' codes' herr h
    obtain ⟨ft, rs, ds, hft, hrs, -, hc, -⟩ := extractResults_inv fuel c c' codes codes' herr h
    exact ⟨ft, rs, hft, hrs, by rw [hc]⟩
  · intro h hq
    obtain ⟨codes, hrun, -⟩ := funcIdens_returns c fuel withID fields h hq
    exact ⟨codes, hrun⟩

/-- C13, witness: on the results `(svc *Service, error)` the second field, whose type is a
plain identifier, is left as it was, while `*Service` becomes `Service`. -/
theorem funcIdens_settles_fields_witness :
    [pointerField.settled, Field.mk [] (.ident ⟨"error"⟩)] =
      [pointerField, .mk [] (.ident ⟨"error"⟩)].map Field.settled ∧
    [pointerField.settled, Field.mk [] (.ident ⟨"error"⟩)].length = 2 ∧
    [pointerField.settled, Field.mk [] (.ident ⟨"error"⟩)].map Field.Names =
      [pointerField, .mk [] (.ident ⟨"error"⟩)].map Field.Names ∧
    [pointerField.settled, Field.mk [] (.ident ⟨"error"⟩)].map Field.Typ =
      [.ident ⟨"Service"⟩, .ident ⟨"error"⟩] ∧
    ∀ (k : Nat) (r : Field), [pointerField, Field.mk [] (.ident ⟨"error"⟩)][k]? = some r → r.Typ.depth = 0 →
      [pointerField.settled, Field.mk [] (.ident ⟨"error"⟩)][k]? = some r :=
  (funcIdens_settles_fields namedResultConverter 2
    [pointerField, .mk [] (.ident ⟨"error"⟩)] false).1
    [pointerField.settled, .mk [] (.ident ⟨"error"⟩)]
    [some [.id "svc", .op "*", .id "Service"], some [.id "error"]] rfl

theorem itemsOf_start_results (r : Field) (i : Nat) :
    itemsOf (funcIdensStart r false i) = declaredName r := by
  cases r with
  | mk names typ =>
    cases names <;> simp [funcIdensStart, declaredName, Field.Names, itemsOf, jen.Id]

/-- C14: result lists never synthesize names.  Whenever `extractResults` returns on a converter
without error, it has appended one descriptor per result field, and the descriptor of a field
is the field's first declared name, if it has one, followed by the markers of its type and its
terminal name: a field without declared name has the type tokens only, a field with a declared
name starts with that name.  It does return when the signature can be extracted. -/
theorem extractResults_never_synthesizes (c : converter) (fuel : Nat) (codes : List Code)
    (herr : c.err = none) :
    (∀ c' codes', c.extractResults fuel codes = .ok (c', codes') →
      ∃ ft rs ds, c.funcType = some ft ∧ ft.Results = some rs ∧ codes' = codes ++ ds ∧
        ds.length = rs.length ∧
        ∀ (k : Nat) (r : Field), rs[k]? = some r →
          ∃ tok, terminalToken c r.Typ.terminal = .ok tok ∧
            ds[k]? = some (some (declaredName r ++ r.Typ.markers ++ [tok])) ∧
            (r.Names = [] → ds[k]? = some (some (r.Typ.markers ++ [tok]))) ∧
            (∀ n more, r.Names = n :: more →
              ds[k]? = some (some (Token.id n.Name :: (r.Typ.markers ++ [tok]))))) ∧
    (c.extractable fuel → ∃ c' ds, c.extractResults fuel codes = .ok (c', codes ++ ds)) := by
  constructor
  · intro c' codes' h
    obtain ⟨ft, rs, ds, hft, hrs, hfi, -, hcodes⟩ :=
      extractResults_inv fuel c c' codes codes' herr h
    obtain ⟨-, hlen, -, hidx⟩ := funcIdens_result c fuel false rs _ ds hfi
    refine ⟨ft, rs, ds, hft, hrs, hcodes, hlen, ?_⟩
    intro k r hk
    obtain ⟨tok, htok, hcode⟩ := hidx k r hk
    rw [itemsOf_start_results] at hcode
    refine ⟨tok, htok, hcode, ?_, ?_⟩
    · intro hn
      simpa [declaredName, hn] using hcode
    · intro n more hn
      simpa [declaredName, hn] using hcode
  · rintro ⟨ft, ps, rs, hft, hps, hrs, hp, hr, hq⟩
    obtain ⟨ds, hrun, -⟩ := funcIdens_returns c fuel false rs hr hq
    exact ⟨{ c with funcType := some { ft with Results := some (rs.map Field.settled) } }, ds,
      by simp [converter.extractResults, herr, hft, hrs, hrun]⟩

/-- C14, witness: the results `(svc *Service, error)` give `svc *Service` and `error`. -/
theorem extractResults_never_synthesizes_witness :
    (Prod.snd <$> namedResultConverter.extractResults 2 []) =
      .ok [some [.id "svc", .op "*", .id "Service"], some [.id "error"]] ∧
    ∃ c' ds, namedResultConverter.extractResults 2 [] = .ok (c', [] ++ ds) :=
  ⟨rfl, (extractResults_never_synthesizes namedResultConverter 2 [] rfl).2
    ⟨_, _, _, rfl, rfl, rfl, by decide, by decide, by unfold quotedImports; decide⟩⟩

/-- C19: `funcIdens` returns one descriptor per field, not per declared name.  Whenever it
returns, the codes are as many as the fields, and the descriptor of a field that declares the
names `n, more...` starts with `n` and goes on with the type tokens, so it is the descriptor of
the same field declaring `n` alone; `a, b T` yields the single descriptor `a T`.  It does
return on field lists of supported types with quoted import literals. -/
theorem funcIdens_one_descriptor_per_field (c : converter) (fuel : Nat) (fields : List Field)
    (withID : Bool) :
    (∀ fields' codes, c.funcIdens fuel fields withID = .ok (fields', codes) →
      codes.length = fields.length ∧
      ∀ (k : Nat) (r : Field) (n : Ident) (more : List Ident), fields[k]? = some r →
        r.Names = n :: more →
        ∃ tok, terminalToken c r.Typ.terminal = .ok tok ∧
          codes[k]? = some (some (Token.id n.Name :: (r.Typ.markers ++ [tok])))) ∧
    (∀ (n : Ident) (more : List Ident) (typ : Expr),
      Prod.snd <$> c.funcIdens fuel [Field.mk (n :: more) typ] withID =
        Prod.snd <$> c.funcIdens fuel [Field.mk [n] typ] withID) ∧
    Prod.snd <$> c.funcIdens 1 [twoNameField] withID = .ok [some [.id "a", .id "T"]] ∧
    ((∀ r ∈ fields, r.Typ.supported = true ∧ r.Typ.depth < fuel) → quotedImports c.imports →
      ∃ codes, c.funcIdens fuel fields withID = .ok (fields.map Field.settled, codes) ∧
        codes.length = fields.length) := by
  refine ⟨?_, ?_, rfl, ?_⟩
  · intro fields' codes h
    obtain ⟨-, hlen, -, hidx⟩ := funcIdens_result c fuel withID fields fields' codes h
    refine ⟨hlen, ?_⟩
    intro k r n more hk hn
    obtain ⟨tok, htok, hcode⟩ := hidx k r hk
    refine ⟨tok, htok, ?_⟩
    simpa [funcIdensStart, hn, itemsOf, jen.Id] using hcode
  · intro n more typ
    simp only [converter.funcIdens, funcIdensFrom, funcIdensStart, Field.Names, Field.Typ]
    cases funcIdensLoop c fuel typ (some (jen.Id n.Name)) <;> rfl
  · intro h hq
    exact funcIdens_returns c fuel withID fields h hq

/-- C19, witness: the parameters `a, b T` and `svc *Service` give two descriptors. -/
theorem funcIdens_one_descriptor_per_field_witness :
    ∃ codes, unnamedThree.funcIdens 2 [twoNameField, pointerField] true =
      .ok ([twoNameField, pointerField].map Field.settled, codes) ∧ codes.length = 2 :=
  (funcIdens_one_descriptor_per_field unnamedThree 2 [twoNameField, pointerField] true).2.2.2
    (by decide) (by unfold quotedImports; decide)

theorem aliasIs_false_of_other (im : ImportSpec) (name : String)
    (h : ∃ n, im.Name = some n ∧ n.Name ≠ name) : aliasIs im name = false := by
  obtain ⟨n, hn, hne⟩ := h
  simp [aliasIs, hn, hne]

/-- C15, counterexample: the table `x "a/foo"` has one import, whose alias `x` differs from the
referenced name `foo`, and `fromImports("foo")` returns `a/foo`, not the empty path: the import
is matched by its final path segment although it declares an alias. -/
theorem fromImports_alias_only_counterexample :
    (∀ im ∈ otherAliasConverter.imports, ∃ n, im.Name = some n ∧ n.Name ≠ "foo") ∧
    otherAliasConverter.fromImports "foo" = .ok "a/foo" ∧
    otherAliasConverter.fromImports "foo" ≠ .ok "" := by
  refine ⟨?_, by decide, by decide⟩
  intro im him
  simp only [otherAliasConverter, List.mem_singleton] at him
  subst him
  exact ⟨⟨"x"⟩, rfl, by decide⟩

/-- C15, as amended: an import that declares an alias is keyed by that alias and by its final
path segment as well.  For every table of imports, with path literals that are empty or at
least two characters long, whose imports all carry an alias different from the referenced
name, `fromImports` returns the empty path when no final path segment equals the name, and
otherwise the path of the first import with a non-empty literal whose final path segment equals
the name. -/
theorem fromImports_alias_and_segment (c : converter) (name : String)
    (hq : quotedImports c.imports)
    (halias : ∀ im ∈ c.imports, ∃ n, im.Name = some n ∧ n.Name ≠ name) :
    ((∀ im ∈ c.imports, finalSegment im.unquoted ≠ name) → c.fromImports name = .ok "") ∧
    (∀ pre im post, c.imports = pre ++ im :: post →
      (∀ x ∈ pre, x.Path.Value = "" ∨ finalSegment x.unquoted ≠ name) →
      im.Path.Value ≠ "" → finalSegment im.unquoted = name →
      c.fromImports name = .ok im.unquoted) := by
  constructor
  · intro hseg
    exact fromImportsLoop_unmatched name c.imports hq
      (fun im him => ⟨aliasIs_false_of_other im name (halias im him), hseg im him⟩)
  · intro pre im post himports hpre hne hseg
    have him : im ∈ c.imports := by rw [himports]; simp
    have hlen : 2 ≤ im.Path.Value.length := by
      rcases hq im him with h0 | h2
      · exact absurd h0 hne
      · exact h2
    rw [converter.fromImports, himports]
    refine fromImportsLoop_first_match name pre im post ?_ hlen (Or.inr hseg)
    intro x hx
    have hxm : x ∈ c.imports := by rw [himports]; simp [hx]
    rcases hpre x hx with h0 | hs
    · exact Or.inl h0
    · rcases hq x hxm with h0 | h2
      · exact Or.inl h0
      · exact Or.inr ⟨h2, aliasIs_false_of_other x name (halias x hxm), hs⟩

/-- C15, witness: under `x "a/foo"` the name `foo` resolves to `a/foo` and the name `bar` to
the empty path. -/
theorem fromImports_alias_and_segment_witness :
    otherAliasConverter.fromImports "foo" = .ok "a/foo" ∧
    otherAliasConverter.fromImports "bar" = .ok "" :=
  ⟨(fromImports_alias_and_segment otherAliasConverter "foo" (by unfold quotedImports; decide)
      (by intro im him
          simp only [otherAliasConverter, List.mem_singleton] at him
          subst him
          exact ⟨⟨"x"⟩, rfl, by decide⟩)).2 [] ⟨some ⟨"x"⟩, ⟨"\"a/foo\""⟩⟩ [] rfl (by simp)
      (by decide) (by decide),
   (fromImports_alias_and_segment otherAliasConverter "bar" (by unfold quotedImports; decide)
      (by intro im him
          simp only [otherAliasConverter, List.mem_singleton] at him
          subst him
          exact ⟨⟨"x"⟩, rfl, by decide⟩)).1 (by decide)⟩

theorem depth_bound (fields : List Field) : ∃ bound, ∀ r ∈ fields, r.Typ.depth < bound := by
  induction fields with
  | nil => exact ⟨0, by simp⟩
  | cons r rest ih =>
    obtain ⟨b, hb⟩ := ih
    refine ⟨max b (r.Typ.depth + 1), ?_⟩
    intro x hx
    rcases List.mem_cons.mp hx with rfl | hx
    · omega
    · have := hb x hx
      omega

/-- C16, counterexample: the field list with the one field of type `v1a.T` is built from a
qualified identifier only, and under an import table with a path literal of one character
`funcIdens` returns no descriptors, whatever the fuel: it panics in `fromImports`. -/
theorem funcIdens_returns_counterexample :
    (∀ r ∈ [qualifiedField], r.Typ.supported = true) ∧
    loneQuoteConverter.funcIdens 1 [qualifiedField] false =
      .error (.panic .sliceBoundsOutOfRange) ∧
    ∀ fuel, ¬ ∃ res, loneQuoteConverter.funcIdens fuel [qualifiedField] false = .ok res := by
  refine ⟨by decide, rfl, ?_⟩
  intro fuel
  cases fuel with
  | zero => simp [converter.funcIdens, funcIdensFrom, funcIdensLoop]
  | succ n =>
    have h : loneQuoteConverter.funcIdens (n + 1) [qualifiedField] false =
        .error (.panic .sliceBoundsOutOfRange) := rfl
    simp [h]

/-- C16, as amended: for every field list whose type nodes are built only from plain
identifiers, qualified identifiers, pointers and sequences, under path literals of the imports
that are empty or at least two characters long, `funcIdens` terminates: from some amount of fuel
on it returns, with the fields settled and one descriptor per field in field order, the
descriptor at position `k` being that of field `k`.  The inner loop on a field ends with the
iteration after its last pointer or sequence level: one more unit of fuel than the nesting depth
is enough and no less is. -/
theorem funcIdens_terminates (c : converter) (fields : List Field) (withID : Bool)
    (hs : ∀ r ∈ fields, r.Typ.supported = true) (hq : quotedImports c.imports) :
    (∃ fuel0, ∀ fuel, fuel0 ≤ fuel →
      ∃ codes, c.funcIdens fuel fields withID = .ok (fields.map Field.settled, codes) ∧
        codes.length = fields.length ∧
        ∀ (k : Nat) (r : Field), fields[k]? = some r →
          ∃ tok, terminalToken c r.Typ.terminal = .ok tok ∧
            codes[k]? = some (some (itemsOf (funcIdensStart r withID k) ++ r.Typ.markers
              ++ [tok]))) ∧
    (∀ r ∈ fields, ∀ st,
      (∃ res, funcIdensLoop c (r.Typ.depth + 1) r.Typ st = .ok res) ∧
      ∀ n, n ≤ r.Typ.depth → funcIdensLoop c n r.Typ st = .error .outOfFuel) := by
  constructor
  · obtain ⟨bound, hb⟩ := depth_bound fields
    refine ⟨bound, fun fuel hfuel => ?_⟩
    obtain ⟨codes, hrun, hlen, hidx⟩ := funcIdensFrom_ok c fuel withID fields 0
      (fun r hr => Nat.lt_of_lt_of_le (hb r hr) hfuel)
      (fun r hr => terminalToken_ok c hq r.Typ (hs r hr))
    refine ⟨codes, hrun, hlen, ?_⟩
    intro k r hk
    simpa using hidx k r hk
  · intro r hr st
    constructor
    · obtain ⟨tok, htok⟩ := terminalToken_ok c hq r.Typ (hs r hr)
      rw [funcIdensLoop_eq c _ r.Typ st (Nat.lt_succ_self _), htok]
      exact ⟨_, rfl⟩
    · intro n hn
      exact funcIdensLoop_short c n r.Typ st hn

/-- C16, witness: the parameters `a, b T` and `svc *Service` under an empty import table. -/
theorem funcIdens_terminates_witness :
    ∃ fuel0, ∀ fuel, fuel0 ≤ fuel →
      ∃ codes, unnamedThree.funcIdens fuel [twoNameField, pointerField] true =
          .ok ([twoNameField, pointerField].map Field.settled, codes) ∧
        codes.length = 2 ∧
        ∀ (k : Nat) (r : Field), [twoNameField, pointerField][k]? = some r →
          ∃ tok, terminalToken unnamedThree r.Typ.terminal = .ok tok ∧
            codes[k]? = some (some (itemsOf (funcIdensStart r true k) ++ r.Typ.markers
              ++ [tok])) :=
  (funcIdens_terminates unnamedThree [twoNameField, pointerField] true (by decide)
    (by unfold quotedImports; decide)).1

theorem terminalToken_noCase (c : converter) (typ : Expr) (h : typ.noCase = true) :
    terminalToken c typ = .error .outOfFuel := by
  cases typ <;> simp [Expr.noCase] at h <;> rfl

theorem funcIdensLoop_noCase (c : converter) (fuel : Nat) (typ : Expr) (st : Option Statement)
    (h : typ.terminal.noCase = true) : funcIdensLoop c fuel typ st = .error .outOfFuel := by
  by_cases hd : typ.depth < fuel
  · rw [funcIdensLoop_eq c fuel typ st hd, terminalToken_noCase c _ h]
  · exact funcIdensLoop_short c fuel typ st (by omega)

theorem funcIdensFrom_diverges (c : converter) (fuel : Nat) (withID : Bool)
    (pre : List Field) (r : Field) (post : List Field) (i : Nat)
    (hpre : ∀ x ∈ pre, x.Typ.supported = true) (hq : quotedImports c.imports)
    (h : r.Typ.terminal.noCase = true) :
    funcIdensFrom c fuel withID i (pre ++ r :: post) = .error .outOfFuel := by
  induction pre generalizing i with
  | nil => simp [funcIdensFrom, funcIdensLoop_noCase c fuel r.Typ _ h]
  | cons x rest ih =>
    have hrest := ih (i + 1) (fun y hy => hpre y (List.mem_cons_of_mem _ hy))
    by_cases hd : x.Typ.depth < fuel
    · obtain ⟨tok, htok⟩ := terminalToken_ok c hq x.Typ (hpre x (List.mem_cons_self _ _))
      simp [funcIdensFrom, funcIdensLoop_eq c fuel x.Typ _ hd, htok, hrest]
    · simp [funcIdensFrom, funcIdensLoop_short c fuel x.Typ _ (by omega)]

/-- C17: `funcIdens` has no case for a node that is a function type or of another kind than
identifier, selector, pointer and sequence.  On a field whose type reaches such a node the inner
loop runs out of every amount of fuel, and for every field list that contains such a field no
amount of fuel yields a result; when the fields before it are of supported types (and the
literals of the imports quoted), every amount of fuel is used up, in that field's loop or
before. -/
theorem funcIdens_unsupported_diverges (c : converter) (fields : List Field) (withID : Bool)
    (r : Field) (hr : r ∈ fields) (hn : r.Typ.terminal.noCase = true) :
    (∀ fuel st, funcIdensLoop c fuel r.Typ st = .error .outOfFuel) ∧
    (∀ fuel st, funcIdensLoop c (fuel + 1) r.Typ.terminal st =
      funcIdensLoop c fuel r.Typ.terminal st) ∧
    (∀ fuel, ∃ fault, c.funcIdens fuel fields withID = .error fault) ∧
    (∀ pre post, fields = pre ++ r :: post → (∀ x ∈ pre, x.Typ.supported = true) →
      quotedImports c.imports →
      ∀ fuel, c.funcIdens fuel fields withID = .error .outOfFuel) := by
  refine ⟨fun fuel st => funcIdensLoop_noCase c fuel r.Typ st hn, ?_, ?_, ?_⟩
  · intro fuel st
    cases hterm : r.Typ.terminal with
    | funcType p q => simp [funcIdensLoop]
    | other k => simp [funcIdensLoop]
    | _ => simp [hterm, Expr.noCase] at hn
  · intro fuel
    cases hrun : c.funcIdens fuel fields withID with
    | error f => exact ⟨f, rfl⟩
    | ok res =>
      obtain ⟨-, -, -, hidx⟩ := funcIdens_result c fuel withID fields res.1 res.2 hrun
      obtain ⟨k, hk⟩ := List.mem_iff_getElem?.mp hr
      obtain ⟨tok, htok, -⟩ := hidx k r hk
      rw [terminalToken_noCase c _ hn] at htok
      cases htok
  · intro pre post hfields hpre hq fuel
    rw [converter.funcIdens, hfields]
    exact funcIdensFrom_diverges c fuel withID pre r post 0 hpre hq hn

/-- C17, witness: with five units of fuel per loop the parameter list `(int, map[string]int)`
yields no result: the fuel is used up. -/
theorem funcIdens_unsupported_diverges_witness :
    unnamedThree.funcIdens 5 [.mk [] (.ident ⟨"int"⟩), mapField] true = .error .outOfFuel :=
  (funcIdens_unsupported_diverges unnamedThree [.mk [] (.ident ⟨"int"⟩), mapField] true mapField
    (by simp) rfl).2.2.2 [.mk [] (.ident ⟨"int"⟩)] [] rfl (by decide)
    (by unfold quotedImports; decide) 5

theorem markers_filter : (typ : Expr) → typ.markers.filter (fun t => !t.isMarker) = []
  | .ident _ => rfl
  | .selectorExpr _ _ => rfl
  | .starExpr X => by
    simp only [Expr.markers]
    rw [List.filter_cons_of_neg (by decide)]
    exact markers_filter X
  | .arrayType X => by
    simp only [Expr.markers]
    rw [List.filter_cons_of_neg (by decide)]
    exact markers_filter X
  | .funcType _ _ => rfl
  | .other _ => rfl

theorem settled_typ (r : Field) : r.settled.Typ = r.Typ.terminal := by
  cases r with
  | mk names typ => rfl

theorem terminal_idem : (typ : Expr) → typ.terminal.terminal = typ.terminal
  | .ident _ => rfl
  | .selectorExpr _ _ => rfl
  | .starExpr X => terminal_idem X
  | .arrayType X => terminal_idem X
  | .funcType _ _ => rfl
  | .other _ => rfl

theorem terminal_markers : (typ : Expr) → typ.terminal.markers = []
  | .ident _ => rfl
  | .selectorExpr _ _ => rfl
  | .starExpr X => terminal_markers X
  | .arrayType X => terminal_markers X
  | .funcType _ _ => rfl
  | .other _ => rfl

theorem terminalToken_not_marker (c : converter) (typ : Expr) (tok : Token)
    (h : terminalToken c typ = .ok tok) : tok.isMarker = false := by
  cases typ with
  | ident i =>
    simp only [terminalToken, Except.ok.injEq] at h
    rw [← h]
    rfl
  | selectorExpr x s =>
    cases x with
    | ident p =>
      simp only [terminalToken] at h
      cases hp : c.fromImports p.Name with
      | error f => simp [hp] at h
      | ok path =>
        simp only [hp, Except.ok.injEq] at h
        rw [← h]
        rfl
    | _ => simp [terminalToken] at h
  | starExpr x => simp [terminalToken] at h
  | arrayType x => simp [terminalToken] at h
  | funcType p r => simp [terminalToken] at h
  | other k => simp [terminalToken] at h

theorem start_filter (r : Field) (withID : Bool) (i : Nat) :
    (itemsOf (funcIdensStart r withID i)).filter (fun t => !t.isMarker) =
      itemsOf (funcIdensStart r withID i) := by
  cases r with
  | mk names typ =>
    cases names with
    | nil => cases withID <;> simp [funcIdensStart, Field.Names, itemsOf, jen.Id, Token.isMarker]
    | cons n more => simp [funcIdensStart, Field.Names, itemsOf, jen.Id, Token.isMarker]

theorem start_settled (r : Field) (withID : Bool) (i : Nat) :
    funcIdensStart r.settled withID i = funcIdensStart r withID i := by
  cases r with
  | mk names typ => rfl

theorem stripMarkers_descriptor (c : converter) (r : Field) (withID : Bool) (i : Nat)
    (tok : Token) (h : terminalToken c r.Typ.terminal = .ok tok) :
    stripMarkers (some (itemsOf (funcIdensStart r withID i) ++ r.Typ.markers ++ [tok])) =
      some (itemsOf (funcIdensStart r withID i) ++ [tok]) := by
  simp [stripMarkers, List.filter_append, start_filter, markers_filter,
    terminalToken_not_marker c _ tok h]

theorem settled_idem (fields : List Field) :
    (fields.map Field.settled).map Field.settled = fields.map Field.settled := by
  induction fields with
  | nil => rfl
  | cons r rest ih =>
    cases r with
    | mk names typ => simp [Field.settled, Field.Names, Field.Typ, terminal_idem]

theorem funcIdens_again (c : converter) (fuel : Nat) (withID : Bool) (fields fields' : List Field)
    (codes : List Code) (h : c.funcIdens fuel fields withID = .ok (fields', codes)) :
    c.funcIdens fuel fields' withID = .ok (fields', codes.map stripMarkers) := by
  obtain ⟨hset, hlen, hd, hidx⟩ := funcIdens_result c fuel withID fields fields' codes h
  subst hset
  have hd2 : ∀ r ∈ fields.map Field.settled, r.Typ.depth < fuel := by
    intro r hr
    obtain ⟨r0, hr0, rfl⟩ := List.mem_map.mp hr
    have := hd r0 hr0
    rw [settled_typ, terminal_depth]
    omega
  have ht2 : ∀ r ∈ fields.map Field.settled, ∃ tok, terminalToken c r.Typ.terminal = .ok tok := by
    intro r hr
    obtain ⟨r0, hr0, rfl⟩ := List.mem_map.mp hr
    obtain ⟨k, hk⟩ := List.mem_iff_getElem?.mp hr0
    obtain ⟨tok, htok, -⟩ := hidx k r0 hk
    exact ⟨tok, by rw [settled_typ, terminal_idem]; exact htok⟩
  obtain ⟨codes2, hrun2, hlen2, hidx2⟩ :=
    funcIdensFrom_ok c fuel withID (fields.map Field.settled) 0 hd2 ht2
  rw [converter.funcIdens, hrun2, settled_idem]
  have hcodes : codes2 = codes.map stripMarkers := by
    apply List.ext_getElem?
    intro n
    cases hn : fields[n]? with
    | none =>
      have hge : fields.length ≤ n := List.getElem?_eq_none_iff.mp hn
      rw [List.getElem?_eq_none_iff.mpr (by simp [hlen2]; omega),
        List.getElem?_eq_none_iff.mpr (by simp [hlen]; omega)]
    | some r =>
      obtain ⟨tok, htok, hcode⟩ := hidx n r hn
      have hn2 : (fields.map Field.settled)[n]? = some r.settled := by
        simp [List.getElem?_map, hn]
      obtain ⟨tok2, htok2, hcode2⟩ := hidx2 n r.settled hn2
      have htt : tok2 = tok := by
        rw [settled_typ, terminal_idem, htok] at htok2
        exact (Except.ok.inj htok2).symm
      subst htt
      rw [hcode2, List.getElem?_map, hcode]
      simp only [Option.map_some', start_settled, Nat.zero_add]
      rw [stripMarkers_descriptor c r withID n tok2 htok, settled_typ, terminal_markers]
      simp
  rw [hcodes]

theorem funcIdensLoop_imports (c c' : converter) (h : c.imports = c'.imports) (fuel : Nat)
    (typ : Expr) (st : Option Statement) :
    funcIdensLoop c fuel typ st = funcIdensLoop c' fuel typ st := by
  induction fuel generalizing typ st with
  | zero => rfl
  | succ n ih =>
    cases typ with
    | ident i => rfl
    | selectorExpr x s => cases x <;> simp [funcIdensLoop, converter.fromImports, h]
    | starExpr x => cases st <;> simp [funcIdensLoop, ih]
    | arrayType x => cases st <;> simp [funcIdensLoop, ih]
    | funcType p r => simp [funcIdensLoop, ih]
    | other k => simp [funcIdensLoop, ih]

theorem funcIdens_imports (c c' : converter) (h : c.imports = c'.imports) (fuel : Nat)
    (fields : List Field) (withID : Bool) :
    c.funcIdens fuel fields withID = c'.funcIdens fuel fields withID := by
  unfold converter.funcIdens
  generalize 0 = i
  induction fields generalizing i with
  | nil => rfl
  | cons r rest ih => simp [funcIdensFrom, funcIdensLoop_imports c c' h, ih]

theorem stripMarkers_differs (c : converter) (fuel : Nat) (withID : Bool)
    (fields fields' : List Field) (codes : List Code)
    (h : c.funcIdens fuel fields withID = .ok (fields', codes))
    (hdeep : ∃ r ∈ fields, 0 < r.Typ.depth) : codes.map stripMarkers ≠ codes := by
  obtain ⟨r, hr, hpos⟩ := hdeep
  obtain ⟨-, -, -, hidx⟩ := funcIdens_result c fuel withID fields fields' codes h
  obtain ⟨k, hk⟩ := List.mem_iff_getElem?.mp hr
  obtain ⟨tok, htok, hcode⟩ := hidx k r hk
  intro heq
  have hk2 : (codes.map stripMarkers)[k]? = codes[k]? := by rw [heq]
  rw [List.getElem?_map, hcode, Option.map_some',
    stripMarkers_descriptor c r withID k tok htok] at hk2
  have hlen := congrArg (fun o : Option Code => (o.getD none).getD [] |>.length) hk2
  simp only [Option.getD_some, List.length_append, List.length_singleton] at hlen
  rw [markers_length] at hlen
  omega

/-- C18: `funcIdens` leaves each field with its innermost node as type node.  Whenever a first
call returns, a second call on the fields it left (same flag, same imports) returns the first
call's descriptors with all pointer and sequence markers removed, and the two results differ as
soon as some field's type has a pointer or sequence level; the same holds for a second
`extractArguments` or `extractResults` on the converter the first one left.  The first call
does return on field lists of supported types with quoted import literals. -/
theorem funcIdens_second_call_strips (c : converter) (fuel : Nat) (fields : List Field)
    (withID : Bool) :
    (∀ fields' codes, c.funcIdens fuel fields withID = .ok (fields', codes) →
      fields' = fields.map Field.settled ∧
      c.funcIdens fuel fields' withID = .ok (fields', codes.map stripMarkers) ∧
      ((∃ r ∈ fields, 0 < r.Typ.depth) → codes.map stripMarkers ≠ codes)) ∧
    (∀ codes c' codes', c.err = none → c.extractArguments fuel codes = .ok (c', codes') →
      ∃ ds, codes' = codes ++ ds ∧
        ∀ more, c'.extractArguments fuel more = .ok (c', more ++ ds.map stripMarkers)) ∧
    (∀ codes c' codes', c.err = none → c.extractResults fuel codes = .ok (c', codes') →
      ∃ ds, codes' = codes ++ ds ∧
        ∀ more, c'.extractResults fuel more = .ok (c', more ++ ds.map stripMarkers)) ∧
    ((∀ r ∈ fields, r.Typ.supported = true ∧ r.Typ.depth < fuel) → quotedImports c.imports →
      ∃ codes, c.funcIdens fuel fields withID = .ok (fields.map Field.settled, codes)) := by
  refine ⟨?_, ?_, ?_, ?_⟩
  · intro fields' codes h
    exact ⟨(funcIdens_result c fuel withID fields fields' codes h).1,
      funcIdens_again c fuel withID fields fields' codes h,
      stripMarkers_differs c fuel withID fields fields' codes h⟩
  · intro codes c' codes' herr h
    obtain ⟨ft, ps, ds, hft, hps, hfi, hc, hcodes⟩ :=
      extractArguments_inv fuel c c' codes codes' herr h
    refine ⟨ds, hcodes, fun more => ?_⟩
    have hagain := funcIdens_again c fuel true ps _ ds hfi
    rw [funcIdens_imports c c' (by rw [hc]) fuel] at hagain
    subst hc
    simp only [herr] at hagain
    simp [converter.extractArguments, herr, hagain, settled_idem]
  · intro codes c' codes' herr h
    obtain ⟨ft, rs, ds, hft, hrs, hfi, hc, hcodes⟩ :=
      extractResults_inv fuel c c' codes codes' herr h
    refine ⟨ds, hcodes, fun more => ?_⟩
    have hagain := funcIdens_again c fuel false rs _ ds hfi
    rw [funcIdens_imports c c' (by rw [hc]) fuel] at hagain
    subst hc
    simp only [herr] at hagain
    simp [converter.extractResults, herr, hagain, settled_idem]
  · intro h hq
    obtain ⟨codes, hrun, -⟩ := funcIdens_returns c fuel withID fields h hq
    exact ⟨codes, hrun⟩

/-- C18, witness: on the parameter `svc *Service` the first call gives `svc *Service`, the
second call, on the field the first one left, gives `svc Service`. -/
theorem funcIdens_second_call_strips_witness :
    unnamedThree.funcIdens 2 [pointerField] true =
      .ok ([pointerField.settled], [some [.id "svc", .op "*", .id "Service"]]) ∧
    unnamedThree.funcIdens 2 [pointerField.settled] true =
      .ok ([pointerField.settled], [some [.id "svc", .id "Service"]]) :=
  ⟨rfl, ((funcIdens_second_call_strips unnamedThree 2 [pointerField] true).1
    [pointerField.settled] [some [.id "svc", .op "*", .id "Service"]] rfl).2.1⟩

theorem visitorResourceGetterMethod_emits (m : meshClientVisitor) (fuel : Nat)
    (method : Field) (imports : List ImportSpec) (spec : InterfaceFileSpec)
    (g x : Char) (gs xs : List Char) (arguments results : List Code)
    (hG : m.getterID = String.mk (g :: gs))
    (hchain : extractChain fuel method imports = .ok (none, arguments, results)) :
    m.visitorResourceGetterMethod fuel (String.mk (x :: xs)) method imports spec =
      .ok ({ spec with Buf := spec.Buf ++
              [getterMethodDecl m.getterID g x xs arguments results] }, none) := by
  have hfirst : goSlice (String.mk (x :: xs)) 0 1 = .ok (String.mk [x]) := by
    simp [goSlice, String.length]
  have hrest : goSlice (String.mk (x :: xs)) 1 (String.mk (x :: xs)).length =
      .ok (String.mk xs) := by
    simp [goSlice, String.length]
  have hrecv : firstByteString m.getterID = .ok (byteToString g) := by
    simp [firstByteString, hG]
  simp only [meshClientVisitor.visitorResourceGetterMethod, hchain, hrecv, hfirst, hrest]
  rfl

theorem extractChain_returns (fuel : Nat) (n : Ident) (more : List Ident)
    (ps rs : List Field) (imports : List ImportSpec)
    (hp : ∀ r ∈ ps, r.Typ.supported = true ∧ r.Typ.depth < fuel)
    (hr : ∀ r ∈ rs, r.Typ.supported = true ∧ r.Typ.depth < fuel)
    (hq : quotedImports imports) :
    ∃ arguments results,
      extractChain fuel (.mk (n :: more) (.funcType (some ps) (some rs))) imports =
        .ok (none, arguments, results) ∧
      arguments.length = ps.length ∧ results.length = rs.length := by
  obtain ⟨as, has, hlena⟩ := funcIdens_returns
    { err := none, funcType := some ⟨some ps, some rs⟩, funcName := n.Name, imports := imports }
    fuel true ps hp hq
  obtain ⟨bs, hbs, hlenb⟩ := funcIdens_returns
    { err := none, funcType := some ⟨some (ps.map Field.settled), some rs⟩, funcName := n.Name,
      imports := imports }
    fuel false rs hr hq
  refine ⟨as, bs, ?_, hlena, hlenb⟩
  simp [extractChain, covertFuncType, Field.Typ, Field.Names, converter.extractArguments,
    converter.extractResults, has, hbs, converter.error]

/-- C20: when the visitor has remembered a getter record with a non-empty name, the factory
method name is non-empty, the method field has at least one declared name and a function type
with both field lists present, every parameter and result type is built from plain identifiers,
qualified identifiers with a plain identifier as qualifier, pointers and sequences, and every
path literal of the imports has at least two characters, `visitorResourceGetterMethod` (given
fuel above the nesting depth of the types) does not panic: it returns nil and leaves the buffer
with exactly one more declaration at its end, the method declaration named after the factory
method with one descriptor per parameter and per result. -/
theorem visitorResourceGetterMethod_safe (m : meshClientVisitor) (fuel : Nat) (name : String)
    (n : Ident) (more : List Ident) (ps rs : List Field) (imports : List ImportSpec)
    (spec : InterfaceFileSpec)
    (hG : m.getterID ≠ "") (hM : name ≠ "")
    (hp : ∀ r ∈ ps, r.Typ.supported = true ∧ r.Typ.depth < fuel)
    (hr : ∀ r ∈ rs, r.Typ.supported = true ∧ r.Typ.depth < fuel)
    (hq : ∀ im ∈ imports, 2 ≤ im.Path.Value.length) :
    ∃ recv arguments results body,
      m.visitorResourceGetterMethod fuel name (.mk (n :: more) (.funcType (some ps) (some rs)))
          imports spec =
        .ok ({ spec with Buf := spec.Buf ++
                [Decl.funcDecl recv name arguments results body] }, none) ∧
      arguments.length = ps.length ∧ results.length = rs.length := by
  obtain ⟨arguments, results, hchain, hlena, hlenb⟩ :=
    extractChain_returns fuel n more ps rs imports hp hr (fun im him => Or.inr (hq im him))
  rcases hgid : m.getterID with ⟨gdata⟩
  rcases name with ⟨ndata⟩
  cases gdata with
  | nil => exact absurd hgid hG
  | cons g gs =>
    cases ndata with
    | nil => exact absurd rfl hM
    | cons x xs =>
      exact ⟨_, arguments, results, _,
        visitorResourceGetterMethod_emits m fuel _ imports spec g x gs xs arguments results hgid
          hchain, hlena, hlenb⟩

/-- C20, witness: the visitor that remembers `ServiceGetter` emits exactly one declaration for
the factory method `Service(name string) ServiceInterface` into an empty buffer. -/
theorem visitorResourceGetterMethod_safe_witness :
    ∃ recv arguments results body,
      serviceVisitor.visitorResourceGetterMethod 1 "Service" serviceGetterMethod [] emptySpec =
        .ok ({ emptySpec with Buf := emptySpec.Buf ++
                [Decl.funcDecl recv "Service" arguments results body] }, none) ∧
      arguments.length = 1 ∧ results.length = 1 :=
  visitorResourceGetterMethod_safe serviceVisitor 1 "Service" ⟨"Service"⟩ []
    [.mk [⟨"name"⟩] (.ident ⟨"string"⟩)] [.mk [] (.ident ⟨"ServiceInterface"⟩)] [] emptySpec
    (by decide) (by decide) (by decide) (by decide) (by intro im him; cases him)

end Generator
